import Mathlib

/-!
# Matchmaker engine: shallow embedding and verification

This file embeds the matchmaking engine of the platform — the queue store and
tick engine of `services/matchmaker/src/queue_manager.cpp` and the team builder
of `services/matchmaker/src/team_builder.cpp` — and proves (or refutes) the
testable properties stated for them.

Modelling conventions:
* C++ `int` is modelled as `Int`; all divisions of the source use C++ truncated
  division and are modelled with `Int.tdiv`.
* `double` appears only in the quality score; it is modelled as `ℚ`.
* `std::chrono::system_clock::time_point` is modelled as an `Int` count of
  milliseconds; `duration_cast<seconds>` truncates, hence `tdiv 1000`.
* `std::unordered_map` is modelled as an association list with unique keys;
  iteration order is the list order.
* `std::sort` yields an unspecified sorted permutation; it is modelled with
  `List.insertionSort`, one such permutation.
* the Mersenne-twister stream backing match-id generation is modelled as an
  explicit function `rand : Nat → Nat` (the i-th draw of `dis(gen)`) together
  with a counter of draws consumed.
-/

namespace Matchmaker

/-- A party waiting in the matchmaking queue (`QueueEntry` of `queue_manager.hpp`). -/
structure QueueEntry where
  party_id : String
  region : String
  mode : String
  team_size : Int
  party_size : Int
  avg_mmr : Int
  enqueued_at : Int
  player_ids : List String
deriving Repr, DecidableEq

/-- A formed match (`MatchResult` of `queue_manager.hpp`). -/
structure MatchResult where
  match_id : String
  region : String
  mode : String
  team_size : Int
  teams : List (List String)
  party_ids : List String
  avg_mmr : Int
  mmr_variance : Int
  quality_score : ℚ
deriving Repr, DecidableEq

/-- A queue bucket key (`QueueBucket` of `queue_manager.hpp`). -/
structure QueueBucket where
  region : String
  mode : String
  team_size : Int
deriving Repr, DecidableEq

/-- Engine configuration (`QueueConfig` of `queue_manager.hpp`), with its source defaults. -/
structure QueueConfig where
  mmr_band_initial : Int := 100
  mmr_band_max : Int := 500
  mmr_band_growth_per_sec : Int := 10
  max_wait_time_sec : Int := 120
  min_match_quality : ℚ := 0.6
deriving Repr, DecidableEq

/-- The bucket an entry belongs to (`QueueBucket{entry.region, entry.mode, entry.team_size}`). -/
def bucket_of (e : QueueEntry) : QueueBucket :=
  ⟨e.region, e.mode, e.team_size⟩

/-! ## Team builder (`team_builder.cpp`) -/

namespace TeamBuilder

/-- Total `party_size` over a list of entries. -/
def total_players (entries : List QueueEntry) : Int :=
  (entries.map (fun e => e.party_size)).sum

/-- `TeamBuilder::calculate_avg_mmr`: party-size-weighted average MMR, 0 on empty input. -/
def calculate_avg_mmr (entries : List QueueEntry) : Int :=
  if entries.isEmpty then 0
  else
    let total_mmr := (entries.map (fun e => e.avg_mmr * e.party_size)).sum
    let tp := total_players entries
    if tp > 0 then total_mmr.tdiv tp else 0

/-- `TeamBuilder::calculate_mmr_variance`: floor of the square root of the
player-weighted mean squared deviation of party average MMRs.  The source
computes `(int)std::sqrt(sum_squared_diff / total_players)` with integer
division; for the nonnegative values arising from the engine this is the floor
of the square root, which `Nat.sqrt` computes. -/
def calculate_mmr_variance (entries : List QueueEntry) : Int :=
  if entries.isEmpty then 0
  else
    let avg_mmr := calculate_avg_mmr entries
    let sum_squared_diff :=
      (entries.map (fun e =>
        (e.avg_mmr - avg_mmr) * (e.avg_mmr - avg_mmr) * e.party_size)).sum
    let tp := total_players entries
    if tp > 0 then Int.ofNat (Nat.sqrt (sum_squared_diff.tdiv tp).toNat) else 0

/-- The per-team accumulation of `calculate_match_quality`: look the player up
in the original entry list (first entry whose player list contains it) and
accumulate that entry's average MMR and a player count. -/
def team_mmr_acc (entries : List QueueEntry) (p : Int × Int) (player_id : String) : Int × Int :=
  match entries.find? (fun e => e.player_ids.contains player_id) with
  | some e => (p.1 + e.avg_mmr, p.2 + 1)
  | none => p

/-- One team of the `team_mmrs` accumulation: append the team's average if any
of its players were found (`team_size > 0`). -/
def team_mmr_step (entries : List QueueEntry) (acc : List Int) (team : List String) : List Int :=
  let s : Int × Int := team.foldl (team_mmr_acc entries) (0, 0)
  if s.2 > 0 then acc ++ [s.1.tdiv s.2] else acc

/-- `TeamBuilder::calculate_match_quality`: weighted sum of team-MMR balance,
variance score and the constant wait-fairness factor, computed over the match's
teams by looking each player up in the original entry list. -/
def calculate_match_quality (m : MatchResult) (entries : List QueueEntry) : ℚ :=
  let team_mmrs : List Int := m.teams.foldl (team_mmr_step entries) []
  let mmr_balance : ℚ :=
    match team_mmrs with
    | t0 :: t1 :: rest =>
      let mx := ((t1 :: rest).foldl max t0)
      let mn := ((t1 :: rest).foldl min t0)
      1 - (((min (mx - mn) 500 : Int) : ℚ) / 500)
    | _ => 1
  let variance_score : ℚ := 1 - (((min m.mmr_variance 1000 : Int) : ℚ) / 1000)
  let wait_score : ℚ := 1
  mmr_balance * 0.5 + variance_score * 0.3 + wait_score * 0.2

/-- One step of the index-scan of `balance_teams`: the accumulator carries the
best index so far, its sum, and the index about to be examined. -/
def min_scan_step (acc : Nat × Int × Nat) (s : Int) : Nat × Int × Nat :=
  if s < acc.2.1 then (acc.2.2, s, acc.2.2 + 1) else (acc.1, acc.2.1, acc.2.2 + 1)

/-- The index-scan of `balance_teams`: index of the first minimal element of
`sums`, scanning left to right with strict improvement (ties keep the lower
index), exactly as the C++ loop does. -/
def find_min_team (sums : List Int) : Nat :=
  match sums with
  | [] => 0
  | s0 :: rest => (rest.foldl min_scan_step (0, s0, 1)).1

/-- One step of the greedy assignment of `balance_teams`: append the entry to
the team with the lowest weighted MMR sum. -/
def assign_entry (acc : List (List QueueEntry) × List Int) (e : QueueEntry) :
    List (List QueueEntry) × List Int :=
  let i := find_min_team acc.2
  (acc.1.set i (acc.1.getD i [] ++ [e]),
   acc.2.set i (acc.2.getD i 0 + e.avg_mmr * e.party_size))

/-- `TeamBuilder::balance_teams`: sort parties by average MMR descending, then
greedily assign each to the team with the lowest weighted MMR sum.  The source
also tracks per-team player counts, which it never reads; they are omitted. -/
def balance_teams (entries : List QueueEntry) (num_teams : Int) : List (List QueueEntry) :=
  let sorted := entries.insertionSort (fun a b => b.avg_mmr ≤ a.avg_mmr)
  (sorted.foldl assign_entry
    (List.replicate num_teams.toNat [], List.replicate num_teams.toNat 0)).1

/-- `TeamBuilder::is_valid_combination`: enough players and MMR spread within
tolerance.  The source reads `entries[0]`; every call site passes a nonempty
list, and the empty case is mapped to `false`. -/
def is_valid_combination (entries : List QueueEntry) (team_size num_teams mmr_tolerance : Int) :
    Bool :=
  match entries with
  | [] => false
  | e0 :: _ =>
    if total_players entries < team_size * num_teams then false
    else
      let mn := entries.foldl (fun m e => min m e.avg_mmr) e0.avg_mmr
      let mx := entries.foldl (fun m e => max m e.avg_mmr) e0.avg_mmr
      decide (mx - mn ≤ mmr_tolerance)

/-- The match record built at the end of `try_form_match` from the balanced
teams: per-team player lists, party ids, weighted average MMR, variance of the
chosen combination and the quality score.  String and numeric fields that
`try_form_match` leaves default-initialised (the match id, region, mode, team
size) are filled in later by `process_bucket`. -/
def build_match (teams : List (List QueueEntry)) (combination entries : List QueueEntry) :
    MatchResult :=
  let flat : List QueueEntry := teams.flatten
  let base : MatchResult :=
    { match_id := ""
      region := ""
      mode := ""
      team_size := 0
      teams := teams.map (fun t => t.flatMap (fun e => e.player_ids))
      party_ids := flat.map (fun e => e.party_id)
      avg_mmr := ((flat.map (fun e : QueueEntry => e.avg_mmr * e.party_size)).sum).tdiv
        (total_players flat)
      mmr_variance := calculate_mmr_variance combination
      quality_score := 0 }
  { base with quality_score := calculate_match_quality base entries }

/-- The combination loop of `try_form_match`: try the first `combo_size`
entries for `combo_size = k, k+1, …, entries.length`, returning the match built
from the first combination with enough players, a valid MMR spread and a
nonempty team assignment.  The loop runs `combo_size` up to `entries.length`;
the structural `fuel` argument (passed as `entries.length`, which the loop
never exhausts) only bounds the recursion. -/
def try_combos (entries : List QueueEntry) (team_size num_teams mmr_tolerance needed : Int) :
    Nat → Nat → Option MatchResult
  | 0, _ => none
  | fuel + 1, combo_size =>
    if combo_size ≤ entries.length then
      let combination := entries.take combo_size
      if total_players combination < needed then
        try_combos entries team_size num_teams mmr_tolerance needed fuel (combo_size + 1)
      else if ¬ is_valid_combination combination team_size num_teams mmr_tolerance then
        try_combos entries team_size num_teams mmr_tolerance needed fuel (combo_size + 1)
      else
        let teams := balance_teams combination num_teams
        if teams.isEmpty then
          try_combos entries team_size num_teams mmr_tolerance needed fuel (combo_size + 1)
        else some (build_match teams combination entries)
    else none

/-- `TeamBuilder::try_form_match`. -/
def try_form_match (entries : List QueueEntry) (team_size num_teams mmr_tolerance : Int) :
    Option MatchResult :=
  if entries.isEmpty then none
  else
    let total_players_needed := team_size * num_teams
    if total_players entries < total_players_needed then none
    else try_combos entries team_size num_teams mmr_tolerance total_players_needed
      entries.length 2

end TeamBuilder

/-! ## Match-id generation (`process_bucket`, lines 108–122) -/

/-- Lowercase hexadecimal digit for `n < 16`, as `std::hex` prints it. -/
def hexChar (n : Nat) : Char :=
  if n < 10 then Char.ofNat (48 + n) else Char.ofNat (87 + n)

/-- Hexadecimal digits, most significant first; `[]` for `0`.  The structural
`fuel` bounds the recursion and is never exhausted when `n ≤ fuel`, since
`n / 16 < n` for `n ≥ 1`. -/
def hexDigitsGo : Nat → Nat → List Char
  | 0, _ => []
  | fuel + 1, n => if n = 0 then [] else hexDigitsGo fuel (n / 16) ++ [hexChar (n % 16)]

/-- Hexadecimal digits of `n`, most significant first; `[]` for `0`. -/
def hexDigits (n : Nat) : List Char :=
  hexDigitsGo n n

/-- `ss << std::hex << std::setfill(48) << std::setw(w) << n`: the hex digits
of `n`, left-padded with zeros to width `w`.  For `n = 0` and `w ≥ 1` this
agrees with the stream, which prints a single `0` padded to width `w`. -/
def hexPad (w : Nat) (n : Nat) : List Char :=
  List.replicate (w - (hexDigits n).length) (hexChar 0) ++ hexDigits n

/-- The UUID-v4-shaped match id built by `process_bucket` from six consecutive
32-bit draws `w1 … w6` of the generator. -/
def make_match_id (w1 w2 w3 w4 w5 w6 : Nat) : String :=
  String.mk (hexPad 8 w1 ++ ['-']
    ++ hexPad 4 (w2 &&& 0xFFFF) ++ ['-']
    ++ hexPad 4 ((w3 &&& 0x0FFF) ||| 0x4000) ++ ['-']
    ++ hexPad 4 ((w4 &&& 0x3FFF) ||| 0x8000) ++ ['-']
    ++ hexPad 8 w5 ++ hexPad 4 (w6 &&& 0xFFFF))

/-! ## Queue manager (`queue_manager.cpp`) -/

/-- The in-memory state of a `QueueManager`: the bucketed entry store
`buckets_` and the `party_id → bucket` lookup `party_to_bucket_`, both
`std::unordered_map`s modelled as association lists. -/
structure QueueState where
  buckets : List (QueueBucket × List QueueEntry)
  party_to_bucket : List (String × QueueBucket)
deriving Repr, DecidableEq

/-- The empty queue state of a freshly constructed `QueueManager`. -/
def QueueState.empty : QueueState := ⟨[], []⟩

/-- `buckets_[bucket].push_back(entry)`: append to the bucket's vector,
creating the bucket if absent. -/
def buckets_push (bs : List (QueueBucket × List QueueEntry)) (b : QueueBucket) (e : QueueEntry) :
    List (QueueBucket × List QueueEntry) :=
  if bs.any (fun kv => decide (kv.1 = b)) then
    bs.map (fun kv => if kv.1 = b then (kv.1, kv.2 ++ [e]) else kv)
  else bs ++ [(b, [e])]

/-- `party_to_bucket_[party_id] = bucket`: insert or overwrite. -/
def index_set (idx : List (String × QueueBucket)) (pid : String) (b : QueueBucket) :
    List (String × QueueBucket) :=
  if idx.any (fun kv => decide (kv.1 = pid)) then
    idx.map (fun kv => if kv.1 = pid then (pid, b) else kv)
  else idx ++ [(pid, b)]

/-- `QueueManager::enqueue`: append the entry to its bucket and record the
party in the lookup map.  The source performs no second-queue check. -/
def enqueue (s : QueueState) (e : QueueEntry) : QueueState :=
  { buckets := buckets_push s.buckets (bucket_of e) e
    party_to_bucket := index_set s.party_to_bucket e.party_id (bucket_of e) }

/-- `QueueManager::dequeue`: look the party up, erase its entries from the
recorded bucket (`buckets_[bucket]` creates the bucket when absent) and drop
the lookup record; a no-op for parties that are not queued. -/
def dequeue (s : QueueState) (party_id : String) : QueueState :=
  match s.party_to_bucket.find? (fun kv => decide (kv.1 = party_id)) with
  | none => s
  | some kv =>
    let bucket := kv.2
    let bs := if s.buckets.any (fun p => decide (p.1 = bucket)) then s.buckets
              else s.buckets ++ [(bucket, [])]
    { buckets := bs.map (fun p =>
        if p.1 = bucket then (p.1, p.2.filter (fun e => decide (¬ e.party_id = party_id))) else p)
      party_to_bucket := s.party_to_bucket.eraseP (fun kv2 => decide (kv2.1 = party_id)) }

/-- `QueueManager::is_queued`: membership in the lookup map. -/
def is_queued (s : QueueState) (party_id : String) : Bool :=
  (s.party_to_bucket.find? (fun kv => decide (kv.1 = party_id))).isSome

/-- `QueueManager::calculate_mmr_band`: the tolerance for an entry that has
waited `wait_time_sec` whole seconds, capped at `mmr_band_max`. -/
def calculate_mmr_band (cfg : QueueConfig) (e : QueueEntry) (now : Int) : Int :=
  let wait_time_sec := (now - e.enqueued_at).tdiv 1000
  let band := cfg.mmr_band_initial + wait_time_sec * cfg.mmr_band_growth_per_sec
  min band cfg.mmr_band_max

/-- `QueueManager::remove_matched_parties`: erase every entry whose party is
listed in `party_ids`. -/
def remove_matched_parties (entries : List QueueEntry) (party_ids : List String) :
    List QueueEntry :=
  entries.filter (fun e => decide (¬ party_ids.contains e.party_id = true))

/-- `QueueManager::remove_timed_out_entries`: erase every entry whose wait
exceeds `max_wait_time_sec` (timestamps in milliseconds). -/
def remove_timed_out_entries (cfg : QueueConfig) (entries : List QueueEntry) (now : Int) :
    List QueueEntry :=
  entries.filter (fun e => decide (¬ now - e.enqueued_at > cfg.max_wait_time_sec * 1000))

/-- One iteration of the match-forming loop of `process_bucket`: the tolerance
that was computed for it, the working entry list it saw, and the match it
emitted (`none` when the loop stopped — no candidate, or candidate below the
quality threshold). -/
structure Attempt where
  tolerance : Int
  entries_at : List QueueEntry
  emitted : Option MatchResult
deriving Repr, DecidableEq

/-- The `while` loop of `process_bucket`, recorded as a list of attempts.  Each
iteration recomputes the tolerance from the longest-waiting entry, asks the
team builder for a match, stops on failure or low quality, and otherwise
stamps the match with an id and the bucket key, removes the matched parties
from the working list and from the lookup map, and repeats.  `fuel` bounds the
iteration count; each emission removes at least the two leading entries, so
`entries.length` is enough fuel for the loop never to be cut short. -/
def process_bucket_go (cfg : QueueConfig) (bucket : QueueBucket) (now : Int) (rand : Nat → Nat) :
    Nat → List QueueEntry → List (String × QueueBucket) → Nat →
    List Attempt × List QueueEntry × List (String × QueueBucket) × Nat
  | 0, entries, idx, ctr => ([], entries, idx, ctr)
  | _ + 1, [], idx, ctr => ([], [], idx, ctr)
  | _ + 1, [e], idx, ctr => ([], [e], idx, ctr)
  | fuel + 1, e :: e2 :: rest, idx, ctr =>
    let entries := e :: e2 :: rest
    let tol := calculate_mmr_band cfg e now
    match TeamBuilder.try_form_match entries bucket.team_size 2 tol with
    | none => ([⟨tol, entries, none⟩], entries, idx, ctr)
    | some m =>
      if m.quality_score < cfg.min_match_quality then
        ([⟨tol, entries, none⟩], entries, idx, ctr)
      else
        let m2 : MatchResult :=
          { m with
            match_id := make_match_id (rand ctr) (rand (ctr + 1)) (rand (ctr + 2))
              (rand (ctr + 3)) (rand (ctr + 4)) (rand (ctr + 5))
            region := bucket.region
            mode := bucket.mode
            team_size := bucket.team_size }
        let entries2 := remove_matched_parties entries m2.party_ids
        let idx2 := idx.filter (fun kv => decide (¬ m2.party_ids.contains kv.1 = true))
        let r := process_bucket_go cfg bucket now rand fuel entries2 idx2 (ctr + 6)
        (⟨tol, entries, some m2⟩ :: r.1, r.2.1, r.2.2.1, r.2.2.2)

/-- `QueueManager::process_bucket`: sort the bucket's entries by enqueue time
ascending, then run the match-forming loop. -/
def process_bucket (cfg : QueueConfig) (bucket : QueueBucket) (now : Int) (rand : Nat → Nat)
    (entries : List QueueEntry) (idx : List (String × QueueBucket)) (ctr : Nat) :
    List Attempt × List QueueEntry × List (String × QueueBucket) × Nat :=
  let sorted := entries.insertionSort (fun a b => a.enqueued_at ≤ b.enqueued_at)
  process_bucket_go cfg bucket now rand sorted.length sorted idx ctr

/-- The bucket walk of `QueueManager::tick`: filter out timed-out entries,
skip buckets left with fewer than two entries, and otherwise process the
bucket, threading the lookup map and the draw counter.  Returns the updated
bucket store, lookup map, counter and the emitted matches.  `now1` is the
instant captured by `tick`, `now2` the one captured inside `process_bucket`. -/
def tick_go (cfg : QueueConfig) (now1 now2 : Int) (rand : Nat → Nat) :
    List (QueueBucket × List QueueEntry) → List (String × QueueBucket) → Nat →
    List (QueueBucket × List QueueEntry) × List (String × QueueBucket) × Nat × List MatchResult
  | [], idx, ctr => ([], idx, ctr, [])
  | (b, es) :: bs, idx, ctr =>
    let kept := remove_timed_out_entries cfg es now1
    if kept.length < 2 then
      let r := tick_go cfg now1 now2 rand bs idx ctr
      ((b, kept) :: r.1, r.2.1, r.2.2.1, r.2.2.2)
    else
      let p := process_bucket cfg b now2 rand kept idx ctr
      let r := tick_go cfg now1 now2 rand bs p.2.2.1 p.2.2.2
      ((b, p.2.1) :: r.1, r.2.1, r.2.2.1, p.1.filterMap (fun a => a.emitted) ++ r.2.2.2)

/-- `QueueManager::tick`: walk every bucket and return the new state together
with the emitted matches and the advanced draw counter. -/
def tick (cfg : QueueConfig) (now1 now2 : Int) (rand : Nat → Nat) (s : QueueState) (ctr : Nat) :
    QueueState × List MatchResult × Nat :=
  let r := tick_go cfg now1 now2 rand s.buckets s.party_to_bucket ctr
  (⟨r.1, r.2.1⟩, r.2.2.2, r.2.2.1)

/-- `QueueManager::get_queue_size`: total number of stored entries. -/
def get_queue_size (s : QueueState) : Nat :=
  (s.buckets.map (fun kv => kv.2.length)).sum

/-- The entries stored for a bucket key (`[]` when the bucket is absent). -/
def bucket_entries (s : QueueState) (b : QueueBucket) : List QueueEntry :=
  match s.buckets.find? (fun kv => decide (kv.1 = b)) with
  | some kv => kv.2
  | none => []

/-- The bucket recorded for a party in the lookup map. -/
def index_lookup (s : QueueState) (pid : String) : Option QueueBucket :=
  (s.party_to_bucket.find? (fun kv => decide (kv.1 = pid))).map (fun kv => kv.2)

/-! ## UUID v4 syntax -/

/-- Lowercase hexadecimal digit character. -/
def isHexL (c : Char) : Bool :=
  (decide (48 ≤ c.toNat) && decide (c.toNat ≤ 57)) ||
  (decide (97 ≤ c.toNat) && decide (c.toNat ≤ 102))

/-- The UUID v4 syntax `xxxxxxxx-xxxx-4xxx-[89ab]xxx-xxxxxxxxxxxx`: 36
characters split by dashes into groups of 8, 4, 4, 4 and 12 lowercase hex
digits, the third group starting with `4` and the fourth with one of
`8 9 a b`. -/
def isUuidV4 (s : String) : Bool :=
  let l := s.data
  let g1 := l.take 8
  let r1 := l.drop 8
  let g2 := (r1.drop 1).take 4
  let r2 := (r1.drop 1).drop 4
  let g3 := (r2.drop 1).take 4
  let r3 := (r2.drop 1).drop 4
  let g4 := (r3.drop 1).take 4
  let r4 := (r3.drop 1).drop 4
  let g5 := r4.drop 1
  decide (l.length = 36) &&
  g1.all isHexL && decide (r1.take 1 = ['-']) &&
  g2.all isHexL && decide (r2.take 1 = ['-']) &&
  g3.all isHexL && decide (r3.take 1 = ['-']) &&
  g4.all isHexL && decide (r4.take 1 = ['-']) &&
  g5.all isHexL &&
  decide (g3.take 1 = ['4']) &&
  (decide (g4.take 1 = ['8']) || decide (g4.take 1 = ['9']) ||
   decide (g4.take 1 = ['a']) || decide (g4.take 1 = ['b']))

/-! ## Spec-side quality formula (for the refinement claim about the score)

These definitions follow the specification's words — quality =
`0.5·balance + 0.3·(1 − clamp(variance,0,1000)/1000) + 0.2·wait_fairness` with
`balance = 1 − clamp(|teamA_mmr − teamB_mmr|, 0, 500)/500`, each team's MMR
being the per-player integer average of its members' party average MMRs — and
are compared with the score computed by the embedded source code. -/

/-- The average MMR of the party whose player list contains the given player
(unique whenever no player identifier occurs in two entries). -/
def spec_player_party_mmr (entries : List QueueEntry) (player_id : String) : Int :=
  match entries.find? (fun e => e.player_ids.contains player_id) with
  | some e => e.avg_mmr
  | none => 0

/-- A team's MMR per the spec: the per-player integer average of the members'
party average MMRs. -/
def spec_team_mmr (entries : List QueueEntry) (team : List String) : Int :=
  ((team.map (spec_player_party_mmr entries)).sum).tdiv (team.length : Int)

/-- The spec's quality formula for a two-team match. -/
def spec_quality_score (entries : List QueueEntry) (m : MatchResult) : ℚ :=
  match m.teams with
  | [teamA, teamB] =>
    let tA := spec_team_mmr entries teamA
    let tB := spec_team_mmr entries teamB
    let balance : ℚ := 1 - (((min |tA - tB| 500 : Int) : ℚ) / 500)
    let variance_score : ℚ := 1 - (((min (max m.mmr_variance 0) 1000 : Int) : ℚ) / 1000)
    let wait_fairness : ℚ := 1
    0.5 * balance + 0.3 * variance_score + 0.2 * wait_fairness
  | _ => 0

/-! ## Division-checked team builder

Each function of `team_builder.cpp` is repeated with every integer division
that the claims name routed through `tdivChecked`, so that a run returns
`none` exactly when some such division had a zero divisor.  (The two floating
divisions by the constants `500.0` and `1000.0` cannot divide by zero.)
Agreement of the checked run with the plain one is then the absence of
division by zero. -/

namespace TeamBuilder

/-- Truncated division, refusing a zero divisor. -/
def tdivChecked (a b : Int) : Option Int :=
  if b = 0 then none else some (a.tdiv b)

/-- `calculate_avg_mmr` with its division checked. -/
def calculate_avg_mmrC (entries : List QueueEntry) : Option Int :=
  if entries.isEmpty then some 0
  else
    let total_mmr := (entries.map (fun e => e.avg_mmr * e.party_size)).sum
    let tp := total_players entries
    if tp > 0 then tdivChecked total_mmr tp else some 0

/-- `calculate_mmr_variance` with its divisions checked. -/
def calculate_mmr_varianceC (entries : List QueueEntry) : Option Int :=
  if entries.isEmpty then some 0
  else do
    let avg_mmr ← calculate_avg_mmrC entries
    let sum_squared_diff :=
      (entries.map (fun e =>
        (e.avg_mmr - avg_mmr) * (e.avg_mmr - avg_mmr) * e.party_size)).sum
    let tp := total_players entries
    if tp > 0 then do
      let q ← tdivChecked sum_squared_diff tp
      pure (Int.ofNat (Nat.sqrt q.toNat))
    else pure 0

/-- The `team_mmrs` accumulation step with its division checked. -/
def team_mmr_stepC (entries : List QueueEntry) (acc : List Int) (team : List String) :
    Option (List Int) := do
  let s : Int × Int := team.foldl (team_mmr_acc entries) (0, 0)
  if s.2 > 0 then do
    let v ← tdivChecked s.1 s.2
    pure (acc ++ [v])
  else pure acc

/-- `calculate_match_quality` with its per-team division checked. -/
def calculate_match_qualityC (m : MatchResult) (entries : List QueueEntry) : Option ℚ := do
  let team_mmrs ← m.teams.foldlM (team_mmr_stepC entries) []
  let mmr_balance : ℚ :=
    match team_mmrs with
    | t0 :: t1 :: rest =>
      let mx := ((t1 :: rest).foldl max t0)
      let mn := ((t1 :: rest).foldl min t0)
      1 - (((min (mx - mn) 500 : Int) : ℚ) / 500)
    | _ => 1
  let variance_score : ℚ := 1 - (((min m.mmr_variance 1000 : Int) : ℚ) / 1000)
  let wait_score : ℚ := 1
  pure (mmr_balance * 0.5 + variance_score * 0.3 + wait_score * 0.2)

/-- `build_match` with the unguarded average-MMR division checked. -/
def build_matchC (teams : List (List QueueEntry)) (combination entries : List QueueEntry) :
    Option MatchResult := do
  let flat : List QueueEntry := teams.flatten
  let avg ← tdivChecked ((flat.map (fun e : QueueEntry => e.avg_mmr * e.party_size)).sum)
    (total_players flat)
  let variance ← calculate_mmr_varianceC combination
  let base : MatchResult :=
    { match_id := ""
      region := ""
      mode := ""
      team_size := 0
      teams := teams.map (fun t => t.flatMap (fun e => e.player_ids))
      party_ids := flat.map (fun e => e.party_id)
      avg_mmr := avg
      mmr_variance := variance
      quality_score := 0 }
  let q ← calculate_match_qualityC base entries
  pure { base with quality_score := q }

/-- The combination loop with divisions checked; the outer `none` signals a
division by zero somewhere in the run. -/
def try_combosC (entries : List QueueEntry) (team_size num_teams mmr_tolerance needed : Int) :
    Nat → Nat → Option (Option MatchResult)
  | 0, _ => some none
  | fuel + 1, combo_size =>
    if combo_size ≤ entries.length then
      let combination := entries.take combo_size
      if total_players combination < needed then
        try_combosC entries team_size num_teams mmr_tolerance needed fuel (combo_size + 1)
      else if ¬ is_valid_combination combination team_size num_teams mmr_tolerance then
        try_combosC entries team_size num_teams mmr_tolerance needed fuel (combo_size + 1)
      else
        let teams := balance_teams combination num_teams
        if teams.isEmpty then
          try_combosC entries team_size num_teams mmr_tolerance needed fuel (combo_size + 1)
        else (build_matchC teams combination entries).map some
    else some none

/-- `try_form_match` with all claimed divisions checked. -/
def try_form_matchC (entries : List QueueEntry) (team_size num_teams mmr_tolerance : Int) :
    Option (Option MatchResult) :=
  if entries.isEmpty then some none
  else
    let total_players_needed := team_size * num_teams
    if total_players entries < total_players_needed then some none
    else try_combosC entries team_size num_teams mmr_tolerance total_players_needed
      entries.length 2

end TeamBuilder

end Matchmaker

/-! # Proof layer -/

namespace Matchmaker

namespace TeamBuilder

theorem min_scan_counter (rest : List Int) :
    ∀ acc : Nat × Int × Nat, (rest.foldl min_scan_step acc).2.2 = acc.2.2 + rest.length := by
  induction rest with
  | nil => intro acc; simp
  | cons s rest ih =>
    intro acc
    simp only [List.foldl_cons, ih, min_scan_step]
    split <;> simp <;> omega

theorem min_scan_lt (rest : List Int) :
    ∀ acc : Nat × Int × Nat, acc.1 < acc.2.2 →
      (rest.foldl min_scan_step acc).1 < (rest.foldl min_scan_step acc).2.2 := by
  induction rest with
  | nil => intro acc h; simpa using h
  | cons s rest ih =>
    intro acc h
    simp only [List.foldl_cons]
    apply ih
    simp only [min_scan_step]
    split <;> simp <;> omega

/-- The scan of `balance_teams` always returns an index inside `sums`. -/
theorem find_min_team_lt (sums : List Int) (h : sums ≠ []) :
    find_min_team sums < sums.length := by
  match sums with
  | [] => exact absurd rfl h
  | s0 :: rest =>
    have h1 := min_scan_lt rest (0, s0, 1) (by simp)
    have h2 : (rest.foldl min_scan_step (0, s0, 1)).2.2 = 1 + rest.length := by
      simpa using min_scan_counter rest (0, s0, 1)
    simp only [find_min_team, List.length_cons]
    omega

theorem flatten_set_append (ts : List (List QueueEntry)) (e : QueueEntry) :
    ∀ i, i < ts.length →
      ((ts.set i (ts.getD i [] ++ [e])).flatten).Perm (ts.flatten ++ [e]) := by
  induction ts with
  | nil => intro i h; simp at h
  | cons t ts ih =>
    intro i h
    match i with
    | 0 =>
      simp only [List.set_cons_zero, List.getD_cons_zero, List.flatten_cons, List.append_assoc]
      exact List.Perm.append_left t (@List.perm_append_comm _ [e] ts.flatten)
    | i + 1 =>
      simp only [List.set_cons_succ, List.getD_cons_succ, List.flatten_cons, List.append_assoc]
      exact List.Perm.append_left t (ih i (by simpa using h))

theorem assign_entry_lengths (acc : List (List QueueEntry) × List Int) (e : QueueEntry) :
    (assign_entry acc e).1.length = acc.1.length ∧ (assign_entry acc e).2.length = acc.2.length := by
  simp [assign_entry]

theorem foldl_assign_lengths (l : List QueueEntry) :
    ∀ acc : List (List QueueEntry) × List Int,
      (l.foldl assign_entry acc).1.length = acc.1.length ∧
      (l.foldl assign_entry acc).2.length = acc.2.length := by
  induction l with
  | nil => intro acc; simp
  | cons e l ih =>
    intro acc
    simp only [List.foldl_cons]
    refine ⟨?_, ?_⟩
    · rw [(ih (assign_entry acc e)).1, (assign_entry_lengths acc e).1]
    · rw [(ih (assign_entry acc e)).2, (assign_entry_lengths acc e).2]

theorem foldl_assign_flatten (l : List QueueEntry) :
    ∀ acc : List (List QueueEntry) × List Int,
      acc.1.length = acc.2.length → acc.2 ≠ [] →
      ((l.foldl assign_entry acc).1.flatten).Perm (acc.1.flatten ++ l) := by
  induction l with
  | nil => intro acc _ _; simp
  | cons e l ih =>
    intro acc hl h0
    simp only [List.foldl_cons]
    have hi : find_min_team acc.2 < acc.1.length := by
      rw [hl]; exact find_min_team_lt acc.2 h0
    have hstep : ((assign_entry acc e).1.flatten).Perm (acc.1.flatten ++ [e]) := by
      simp only [assign_entry]
      exact flatten_set_append acc.1 e _ hi
    have h1 : (assign_entry acc e).1.length = (assign_entry acc e).2.length := by
      rw [(assign_entry_lengths acc e).1, (assign_entry_lengths acc e).2, hl]
    have h2 : (assign_entry acc e).2 ≠ [] := by
      intro hc
      apply h0
      have hlen := (assign_entry_lengths acc e).2
      rw [hc] at hlen
      simp at hlen
      exact List.length_eq_zero.mp hlen.symm
    have heq : acc.1.flatten ++ (e :: l) = (acc.1.flatten ++ [e]) ++ l := by simp
    rw [heq]
    exact (ih _ h1 h2).trans (List.Perm.append_right l hstep)

theorem flatten_replicate_nil (n : Nat) : (List.replicate n ([] : List QueueEntry)).flatten = [] := by
  induction n with
  | zero => rfl
  | succ n ih => simpa using ih

/-- The length of the team list built by `balance_teams`. -/
theorem balance_teams_length (entries : List QueueEntry) (nt : Int) :
    (balance_teams entries nt).length = nt.toNat := by
  simp only [balance_teams]
  rw [(foldl_assign_lengths _ _).1]
  simp

/-- The greedy balancing distributes exactly the given parties over the teams:
the flattened team list is a permutation of the input. -/
theorem balance_teams_flatten_perm (entries : List QueueEntry) (nt : Int)
    (h : nt.toNat ≠ 0) :
    ((balance_teams entries nt).flatten).Perm entries := by
  simp only [balance_teams]
  have h1 : (List.replicate nt.toNat ([] : List QueueEntry)).length
      = (List.replicate nt.toNat (0 : Int)).length := by simp
  have h2 : (List.replicate nt.toNat (0 : Int)) ≠ [] := by
    intro hc
    have := congrArg List.length hc
    simp at this
    omega
  have h3 := foldl_assign_flatten (entries.insertionSort (fun a b => b.avg_mmr ≤ a.avg_mmr))
    (List.replicate nt.toNat [], List.replicate nt.toNat 0) h1 h2
  rw [flatten_replicate_nil] at h3
  simp only [List.nil_append] at h3
  exact h3.trans (List.perm_insertionSort _ entries)

theorem foldl_min_le_init (l : List QueueEntry) :
    ∀ a : Int, l.foldl (fun m e => min m e.avg_mmr) a ≤ a := by
  induction l with
  | nil => intro a; simp
  | cons e l ih =>
    intro a
    simp only [List.foldl_cons]
    exact le_trans (ih _) (min_le_left _ _)

theorem foldl_min_le_mem (l : List QueueEntry) :
    ∀ a : Int, ∀ x ∈ l, l.foldl (fun m e => min m e.avg_mmr) a ≤ x.avg_mmr := by
  induction l with
  | nil => intro a x hx; simp at hx
  | cons e l ih =>
    intro a x hx
    simp only [List.foldl_cons]
    rcases List.mem_cons.mp hx with h | h
    · subst h
      exact le_trans (foldl_min_le_init l _) (min_le_right _ _)
    · exact ih _ x h

theorem le_foldl_max_init (l : List QueueEntry) :
    ∀ a : Int, a ≤ l.foldl (fun m e => max m e.avg_mmr) a := by
  induction l with
  | nil => intro a; simp
  | cons e l ih =>
    intro a
    simp only [List.foldl_cons]
    exact le_trans (le_max_left _ _) (ih _)

theorem le_foldl_max_mem (l : List QueueEntry) :
    ∀ a : Int, ∀ x ∈ l, x.avg_mmr ≤ l.foldl (fun m e => max m e.avg_mmr) a := by
  induction l with
  | nil => intro a x hx; simp at hx
  | cons e l ih =>
    intro a x hx
    simp only [List.foldl_cons]
    rcases List.mem_cons.mp hx with h | h
    · subst h
      exact le_trans (le_max_right _ _) (le_foldl_max_init l _)
    · exact ih _ x h

/-- A valid combination has its MMR spread within the tolerance: any two
member parties' average MMRs differ by at most `mmr_tolerance`. -/
theorem is_valid_combination_spread {entries : List QueueEntry} {ts nt tol : Int}
    (h : is_valid_combination entries ts nt tol = true) :
    ∀ e1 ∈ entries, ∀ e2 ∈ entries, e1.avg_mmr - e2.avg_mmr ≤ tol := by
  intro e1 h1 e2 h2
  match hE : entries with
  | [] => simp [hE] at h1
  | e0 :: rest =>
    simp only [is_valid_combination] at h
    split at h
    · exact absurd h (by simp)
    · have hspread := of_decide_eq_true h
      have hle1 : e1.avg_mmr ≤ (e0 :: rest).foldl (fun m e => max m e.avg_mmr) e0.avg_mmr := by
        simp only [List.foldl_cons]
        rcases List.mem_cons.mp h1 with hh | hh
        · subst hh
          exact le_trans (le_max_left _ _) (le_foldl_max_init rest _)
        · exact le_foldl_max_mem rest _ e1 hh
      have hle2 : (e0 :: rest).foldl (fun m e => min m e.avg_mmr) e0.avg_mmr ≤ e2.avg_mmr := by
        simp only [List.foldl_cons]
        rcases List.mem_cons.mp h2 with hh | hh
        · subst hh
          exact le_trans (foldl_min_le_init rest _) (min_le_left _ _)
        · exact foldl_min_le_mem rest _ e2 hh
      omega

/-- The total number of players of a valid combination meets the requirement. -/
theorem is_valid_combination_players {entries : List QueueEntry} {ts nt tol : Int}
    (h : is_valid_combination entries ts nt tol = true) :
    ts * nt ≤ total_players entries := by
  match hE : entries with
  | [] => simp [hE, is_valid_combination] at h
  | e0 :: rest =>
    simp only [is_valid_combination] at h
    split at h
    · exact absurd h (by simp)
    · omega

theorem build_match_party_ids (teams : List (List QueueEntry)) (comb entries : List QueueEntry) :
    (build_match teams comb entries).party_ids = teams.flatten.map (fun e => e.party_id) := rfl

theorem build_match_teams (teams : List (List QueueEntry)) (comb entries : List QueueEntry) :
    (build_match teams comb entries).teams = teams.map (fun t => t.flatMap (fun e => e.player_ids)) :=
  rfl

theorem build_match_variance (teams : List (List QueueEntry)) (comb entries : List QueueEntry) :
    (build_match teams comb entries).mmr_variance = calculate_mmr_variance comb := rfl

theorem build_match_quality (teams : List (List QueueEntry)) (comb entries : List QueueEntry) :
    (build_match teams comb entries).quality_score =
      calculate_match_quality (build_match teams comb entries) entries := by
  have h : calculate_match_quality (build_match teams comb entries) entries =
      calculate_match_quality
        { build_match teams comb entries with quality_score := 0 } entries := by
    simp [calculate_match_quality]
  rw [h]
  rfl

/-- Unfolding equation of the combination loop (one step). -/
theorem try_combos_eq (entries : List QueueEntry) (ts nt tol needed : Int) (fuel k : Nat) :
    try_combos entries ts nt tol needed (fuel + 1) k =
      if k ≤ entries.length then
        if total_players (entries.take k) < needed then
          try_combos entries ts nt tol needed fuel (k + 1)
        else if ¬ is_valid_combination (entries.take k) ts nt tol then
          try_combos entries ts nt tol needed fuel (k + 1)
        else if (balance_teams (entries.take k) nt).isEmpty then
          try_combos entries ts nt tol needed fuel (k + 1)
        else some (build_match (balance_teams (entries.take k) nt) (entries.take k) entries)
      else none := by
  by_cases h : k ≤ entries.length <;> simp [try_combos, h]

/-- Master characterisation of the combination loop: a returned match comes
from the first (smallest) viable prefix at index `j ≥ k`. -/
theorem try_combos_spec {entries : List QueueEntry} {ts nt tol needed : Int} {fuel k : Nat}
    {m : MatchResult} (h : try_combos entries ts nt tol needed fuel k = some m) :
    ∃ j, k ≤ j ∧ j ≤ entries.length ∧
      needed ≤ total_players (entries.take j) ∧
      is_valid_combination (entries.take j) ts nt tol = true ∧
      (balance_teams (entries.take j) nt).isEmpty = false ∧
      m = build_match (balance_teams (entries.take j) nt) (entries.take j) entries ∧
      ∀ i, k ≤ i → i < j →
        (total_players (entries.take i) < needed ∨
         is_valid_combination (entries.take i) ts nt tol = false ∨
         (balance_teams (entries.take i) nt).isEmpty = true) := by
  induction fuel generalizing k with
  | zero => simp [try_combos] at h
  | succ fuel ih =>
    rw [try_combos_eq] at h
    by_cases hle : k ≤ entries.length
    · simp only [if_pos hle] at h
      by_cases hp : total_players (entries.take k) < needed
      · simp only [if_pos hp] at h
        obtain ⟨j, hj1, hj2, hj3, hj4, hj5, hj6, hj7⟩ := ih h
        refine ⟨j, by omega, hj2, hj3, hj4, hj5, hj6, ?_⟩
        intro i hi1 hi2
        rcases Nat.eq_or_lt_of_le hi1 with he | hlt
        · exact Or.inl (he ▸ hp)
        · exact hj7 i hlt hi2
      · simp only [if_neg hp] at h
        by_cases hv : is_valid_combination (entries.take k) ts nt tol
        · simp only [hv, not_true_eq_false, if_neg, ite_false] at h
          by_cases hb : (balance_teams (entries.take k) nt).isEmpty
          · simp only [if_pos hb] at h
            obtain ⟨j, hj1, hj2, hj3, hj4, hj5, hj6, hj7⟩ := ih h
            refine ⟨j, by omega, hj2, hj3, hj4, hj5, hj6, ?_⟩
            intro i hi1 hi2
            rcases Nat.eq_or_lt_of_le hi1 with he | hlt
            · exact Or.inr (Or.inr (he ▸ hb))
            · exact hj7 i hlt hi2
          · simp only [if_neg hb] at h
            refine ⟨k, le_refl k, hle, by omega, hv, by simpa using hb,
              (Option.some_injective _ h).symm, ?_⟩
            intro i hi1 hi2
            omega
        · simp only [hv] at h
          simp at h
          obtain ⟨j, hj1, hj2, hj3, hj4, hj5, hj6, hj7⟩ := ih h
          refine ⟨j, by omega, hj2, hj3, hj4, hj5, hj6, ?_⟩
          intro i hi1 hi2
          rcases Nat.eq_or_lt_of_le hi1 with he | hlt
          · exact Or.inr (Or.inl (he ▸ (by simpa using hv)))
          · exact hj7 i hlt hi2
    · simp [hle] at h

/-- Master characterisation of `try_form_match`: a returned match is built
from the smallest viable oldest-first prefix of at least two parties. -/
theorem try_form_match_spec {entries : List QueueEntry} {ts nt tol : Int} {m : MatchResult}
    (h : try_form_match entries ts nt tol = some m) :
    ∃ j, 2 ≤ j ∧ j ≤ entries.length ∧
      ts * nt ≤ total_players (entries.take j) ∧
      is_valid_combination (entries.take j) ts nt tol = true ∧
      (balance_teams (entries.take j) nt).isEmpty = false ∧
      m = build_match (balance_teams (entries.take j) nt) (entries.take j) entries ∧
      ∀ i, 2 ≤ i → i < j →
        (total_players (entries.take i) < ts * nt ∨
         is_valid_combination (entries.take i) ts nt tol = false ∨
         (balance_teams (entries.take i) nt).isEmpty = true) := by
  simp only [try_form_match] at h
  split at h
  · exact absurd h (by simp)
  · split at h
    · exact absurd h (by simp)
    · obtain ⟨j, hj1, hj2, hj3, hj4, hj5, hj6, hj7⟩ := try_combos_spec h
      exact ⟨j, hj1, hj2, hj3, hj4, hj5, hj6, hj7⟩

theorem flatten_map_flatMap (teams : List (List QueueEntry)) (f : QueueEntry → List String) :
    (teams.map (fun t => t.flatMap f)).flatten = teams.flatten.flatMap f := by
  induction teams with
  | nil => rfl
  | cons t ts ih => simp [List.flatMap_append, ih]

/-- If `balance_teams` produced a nonempty team list, the team count is positive. -/
theorem toNat_pos_of_not_isEmpty {comb : List QueueEntry} {nt : Int}
    (h : (balance_teams comb nt).isEmpty = false) : nt.toNat ≠ 0 := by
  intro hc
  have hlen := balance_teams_length comb nt
  rw [hc] at hlen
  have hnil : balance_teams comb nt = [] := List.length_eq_zero.mp hlen
  rw [hnil] at h
  simp at h

/-- The parties and players of a match returned by `try_form_match` are
exactly those of the viable oldest-first prefix it was built from. -/
theorem try_form_match_members {entries : List QueueEntry} {ts nt tol : Int} {m : MatchResult}
    (h : try_form_match entries ts nt tol = some m) :
    ∃ j, 2 ≤ j ∧ j ≤ entries.length ∧
      (m.party_ids).Perm ((entries.take j).map (fun e => e.party_id)) ∧
      (m.teams.flatten).Perm ((entries.take j).flatMap (fun e => e.player_ids)) ∧
      m.mmr_variance = calculate_mmr_variance (entries.take j) := by
  obtain ⟨j, hj1, hj2, _, _, hb, hm, _⟩ := try_form_match_spec h
  have hnt := toNat_pos_of_not_isEmpty hb
  have hperm := balance_teams_flatten_perm (entries.take j) nt hnt
  refine ⟨j, hj1, hj2, ?_, ?_, ?_⟩
  · rw [hm, build_match_party_ids]
    exact hperm.map _
  · rw [hm, build_match_teams, flatten_map_flatMap]
    exact hperm.flatMap_right _
  · rw [hm, build_match_variance]

end TeamBuilder

/-! ## Process-bucket invariants -/

instance : IsTotal QueueEntry (fun a b => a.enqueued_at ≤ b.enqueued_at) :=
  ⟨fun a b => Int.le_total _ _⟩

instance : IsTrans QueueEntry (fun a b => a.enqueued_at ≤ b.enqueued_at) :=
  ⟨fun _ _ _ h1 h2 => le_trans h1 h2⟩

/-- What one recorded attempt of the match-forming loop guarantees. -/
theorem process_bucket_go_attempts (cfg : QueueConfig) (bucket : QueueBucket) (now : Int)
    (rand : Nat → Nat) :
    ∀ (fuel : Nat) (entries : List QueueEntry) (idx : List (String × QueueBucket)) (ctr : Nat),
      List.Pairwise (fun a b : QueueEntry => a.enqueued_at ≤ b.enqueued_at) entries →
      ∀ a ∈ (process_bucket_go cfg bucket now rand fuel entries idx ctr).1,
        a.entries_at.Sublist entries ∧
        List.Pairwise (fun a b : QueueEntry => a.enqueued_at ≤ b.enqueued_at) a.entries_at ∧
        (∃ e rest, a.entries_at = e :: rest ∧
          a.tolerance = calculate_mmr_band cfg e now) ∧
        (∀ m, a.emitted = some m →
          cfg.min_match_quality ≤ m.quality_score ∧
          m.region = bucket.region ∧ m.mode = bucket.mode ∧ m.team_size = bucket.team_size ∧
          (∃ c, m.match_id = make_match_id (rand c) (rand (c + 1)) (rand (c + 2))
            (rand (c + 3)) (rand (c + 4)) (rand (c + 5))) ∧
          (∃ m0, TeamBuilder.try_form_match a.entries_at bucket.team_size 2 a.tolerance = some m0 ∧
            m.party_ids = m0.party_ids ∧ m.teams = m0.teams ∧
            m.quality_score = m0.quality_score ∧ m.mmr_variance = m0.mmr_variance)) := by
  intro fuel
  induction fuel with
  | zero =>
    intro entries idx ctr hs a ha
    simp [process_bucket_go] at ha
  | succ fuel ih =>
    intro entries idx ctr hs a ha
    match entries with
    | [] => simp [process_bucket_go] at ha
    | [e] => simp [process_bucket_go] at ha
    | e :: e2 :: rest =>
      rw [process_bucket_go] at ha
      cases htf : TeamBuilder.try_form_match (e :: e2 :: rest) bucket.team_size 2
          (calculate_mmr_band cfg e now) with
      | none =>
        rw [htf] at ha
        simp only [List.mem_singleton] at ha
        subst ha
        refine ⟨List.Sublist.refl _, hs, ⟨e, e2 :: rest, rfl, rfl⟩, ?_⟩
        intro m hm
        simp at hm
      | some m =>
        rw [htf] at ha
        by_cases hq : m.quality_score < cfg.min_match_quality
        · simp only [if_pos hq, List.mem_singleton] at ha
          subst ha
          refine ⟨List.Sublist.refl _, hs, ⟨e, e2 :: rest, rfl, rfl⟩, ?_⟩
          intro m hm
          simp at hm
        · simp only [if_neg hq] at ha
          rcases List.mem_cons.mp ha with ha1 | ha2
          · subst ha1
            refine ⟨List.Sublist.refl _, hs, ⟨e, e2 :: rest, rfl, rfl⟩, ?_⟩
            intro m2 hm2
            have hm2' : m2 = { m with
                match_id := make_match_id (rand ctr) (rand (ctr + 1)) (rand (ctr + 2))
                  (rand (ctr + 3)) (rand (ctr + 4)) (rand (ctr + 5))
                region := bucket.region
                mode := bucket.mode
                team_size := bucket.team_size } := Option.some_injective _ hm2.symm
            subst hm2'
            exact ⟨by simpa using not_lt.mp hq, rfl, rfl, rfl, ⟨ctr, rfl⟩,
              m, htf, rfl, rfl, rfl, rfl⟩
          · have hsub : (remove_matched_parties (e :: e2 :: rest)
                ({ m with
                  match_id := make_match_id (rand ctr) (rand (ctr + 1)) (rand (ctr + 2))
                    (rand (ctr + 3)) (rand (ctr + 4)) (rand (ctr + 5))
                  region := bucket.region
                  mode := bucket.mode
                  team_size := bucket.team_size } : MatchResult).party_ids).Sublist
                (e :: e2 :: rest) := List.filter_sublist _
            have hs2 := List.Pairwise.sublist hsub hs
            obtain ⟨c1, c2, c3, c4⟩ := ih _ _ _ hs2 a ha2
            exact ⟨c1.trans hsub, c2, c3, c4⟩

/-- The working entry list only shrinks: the final list is a sublist of the
input. -/
theorem process_bucket_go_final_sublist (cfg : QueueConfig) (bucket : QueueBucket) (now : Int)
    (rand : Nat → Nat) :
    ∀ (fuel : Nat) (entries : List QueueEntry) (idx : List (String × QueueBucket)) (ctr : Nat),
      ((process_bucket_go cfg bucket now rand fuel entries idx ctr).2.1).Sublist entries := by
  intro fuel
  induction fuel with
  | zero => intro entries idx ctr; simp [process_bucket_go]
  | succ fuel ih =>
    intro entries idx ctr
    match entries with
    | [] => simp [process_bucket_go]
    | [e] => simp [process_bucket_go]
    | e :: e2 :: rest =>
      rw [process_bucket_go]
      cases htf : TeamBuilder.try_form_match (e :: e2 :: rest) bucket.team_size 2
          (calculate_mmr_band cfg e now) with
      | none => exact List.Sublist.refl _
      | some m =>
        by_cases hq : m.quality_score < cfg.min_match_quality
        · simp only [if_pos hq]
          exact List.Sublist.refl _
        · simp only [if_neg hq]
          exact (ih _ _ _).trans (List.filter_sublist _)

/-- Wrapper of `process_bucket_go_attempts` at the `process_bucket` level:
every attempt works on a sorted selection of the bucket's entries, its
tolerance is the band of its oldest entry, and an emitted match passed the
quality gate and came from the team builder on that working list. -/
theorem process_bucket_attempts (cfg : QueueConfig) (bucket : QueueBucket) (now : Int)
    (rand : Nat → Nat) (entries : List QueueEntry) (idx : List (String × QueueBucket)) (ctr : Nat) :
    ∀ a ∈ (process_bucket cfg bucket now rand entries idx ctr).1,
      a.entries_at ⊆ entries ∧
      List.Pairwise (fun a b : QueueEntry => a.enqueued_at ≤ b.enqueued_at) a.entries_at ∧
      (∃ e rest, a.entries_at = e :: rest ∧
        a.tolerance = calculate_mmr_band cfg e now) ∧
      (∀ m, a.emitted = some m →
        cfg.min_match_quality ≤ m.quality_score ∧
        m.region = bucket.region ∧ m.mode = bucket.mode ∧ m.team_size = bucket.team_size ∧
        (∃ c, m.match_id = make_match_id (rand c) (rand (c + 1)) (rand (c + 2))
          (rand (c + 3)) (rand (c + 4)) (rand (c + 5))) ∧
        (∃ m0, TeamBuilder.try_form_match a.entries_at bucket.team_size 2 a.tolerance = some m0 ∧
          m.party_ids = m0.party_ids ∧ m.teams = m0.teams ∧
          m.quality_score = m0.quality_score ∧ m.mmr_variance = m0.mmr_variance)) := by
  intro a ha
  have hsorted : List.Pairwise (fun a b : QueueEntry => a.enqueued_at ≤ b.enqueued_at)
      (entries.insertionSort (fun a b => a.enqueued_at ≤ b.enqueued_at)) :=
    List.sorted_insertionSort (fun a b : QueueEntry => a.enqueued_at ≤ b.enqueued_at) entries
  obtain ⟨c1, c2, c3, c4⟩ := process_bucket_go_attempts cfg bucket now rand _ _ idx ctr hsorted a ha
  refine ⟨?_, c2, c3, c4⟩
  intro x hx
  exact ((List.perm_insertionSort _ entries).mem_iff).mp (c1.subset hx)

/-- Every party of every emitted match of a bucket run is the party of some
entry of the bucket's input list. -/
theorem process_bucket_match_parties (cfg : QueueConfig) (bucket : QueueBucket) (now : Int)
    (rand : Nat → Nat) (entries : List QueueEntry) (idx : List (String × QueueBucket)) (ctr : Nat) :
    ∀ m ∈ (process_bucket cfg bucket now rand entries idx ctr).1.filterMap (fun a => a.emitted),
      ∀ pid ∈ m.party_ids, ∃ e ∈ entries, e.party_id = pid := by
  intro m hm pid hpid
  obtain ⟨a, ha, hae⟩ := List.mem_filterMap.mp hm
  obtain ⟨hsub, _, _, hemit⟩ := process_bucket_attempts cfg bucket now rand entries idx ctr a ha
  obtain ⟨_, _, _, _, _, m0, htf, hpids, _, _, _⟩ := hemit m hae
  obtain ⟨j, _, _, hperm, _, _⟩ := TeamBuilder.try_form_match_members htf
  rw [hpids] at hpid
  have hpid2 := hperm.mem_iff.mp hpid
  obtain ⟨e, he, hepid⟩ := List.mem_map.mp hpid2
  refine ⟨e, hsub ((List.take_sublist j a.entries_at).subset he), hepid⟩

/-- The final entry list of a bucket run only contains entries of the input. -/
theorem process_bucket_final_subset (cfg : QueueConfig) (bucket : QueueBucket) (now : Int)
    (rand : Nat → Nat) (entries : List QueueEntry) (idx : List (String × QueueBucket)) (ctr : Nat) :
    (process_bucket cfg bucket now rand entries idx ctr).2.1 ⊆ entries := by
  intro x hx
  have h := process_bucket_go_final_sublist cfg bucket now rand
    ((entries.insertionSort (fun a b => a.enqueued_at ≤ b.enqueued_at)).length)
    (entries.insertionSort (fun a b => a.enqueued_at ≤ b.enqueued_at)) idx ctr
  exact ((List.perm_insertionSort _ entries).mem_iff).mp (h.subset hx)

/-! ## Tick invariants -/

/-- Surviving entries of a tick stem from the timeout-filtered entries of their
own bucket, and emitted matches draw their parties from timeout-filtered
entries. -/
theorem tick_go_spec (cfg : QueueConfig) (now1 now2 : Int) (rand : Nat → Nat) :
    ∀ (bs : List (QueueBucket × List QueueEntry)) (idx : List (String × QueueBucket)) (ctr : Nat),
      (∀ p ∈ (tick_go cfg now1 now2 rand bs idx ctr).1,
        ∃ q ∈ bs, p.1 = q.1 ∧ p.2 ⊆ remove_timed_out_entries cfg q.2 now1) ∧
      (∀ m ∈ (tick_go cfg now1 now2 rand bs idx ctr).2.2.2,
        ∃ q ∈ bs, ∀ pid ∈ m.party_ids,
          ∃ e ∈ remove_timed_out_entries cfg q.2 now1, e.party_id = pid) := by
  intro bs
  induction bs with
  | nil =>
    intro idx ctr
    constructor
    · intro p hp; simp [tick_go] at hp
    · intro m hm; simp [tick_go] at hm
  | cons q bs ih =>
    intro idx ctr
    obtain ⟨b, es⟩ := q
    rw [tick_go]
    by_cases hlen : (remove_timed_out_entries cfg es now1).length < 2
    · simp only [if_pos hlen]
      constructor
      · intro p hp
        rcases List.mem_cons.mp hp with h1 | h2
        · exact ⟨(b, es), List.mem_cons_self _ _, by rw [h1], by rw [h1]; exact fun x hx => hx⟩
        · obtain ⟨q2, hq2, hq3, hq4⟩ := (ih idx ctr).1 p h2
          exact ⟨q2, List.mem_cons_of_mem _ hq2, hq3, hq4⟩
      · intro m hm
        obtain ⟨q2, hq2, hq3⟩ := (ih idx ctr).2 m hm
        exact ⟨q2, List.mem_cons_of_mem _ hq2, hq3⟩
    · simp only [if_neg hlen]
      constructor
      · intro p hp
        rcases List.mem_cons.mp hp with h1 | h2
        · refine ⟨(b, es), List.mem_cons_self _ _, by rw [h1], ?_⟩
          rw [h1]
          exact process_bucket_final_subset cfg b now2 rand _ idx ctr
        · obtain ⟨q2, hq2, hq3, hq4⟩ := (ih _ _).1 p h2
          exact ⟨q2, List.mem_cons_of_mem _ hq2, hq3, hq4⟩
      · intro m hm
        rcases List.mem_append.mp hm with h1 | h2
        · refine ⟨(b, es), List.mem_cons_self _ _, ?_⟩
          intro pid hpid
          obtain ⟨e, he, hepid⟩ := process_bucket_match_parties cfg b now2 rand _ idx ctr m h1
            pid hpid
          exact ⟨e, he, hepid⟩
        · obtain ⟨q2, hq2, hq3⟩ := (ih _ _).2 m h2
          exact ⟨q2, List.mem_cons_of_mem _ hq2, hq3⟩

/-! ## Witness fixtures: a concrete engine run -/

/-- A fixed stream for the random draws. -/
def wRand : Nat → Nat := fun _ => 0

/-- A five-player party with average MMR 1500, enqueued at time 0. -/
def wEntry1 : QueueEntry :=
  ⟨"wp1", "us-west", "ranked", 5, 5, 1500, 0, ["a1", "a2", "a3", "a4", "a5"]⟩

/-- A second five-player party with average MMR 1500, enqueued at time 0. -/
def wEntry2 : QueueEntry :=
  ⟨"wp2", "us-west", "ranked", 5, 5, 1500, 0, ["b1", "b2", "b3", "b4", "b5"]⟩

/-- The 5v5 ranked us-west bucket. -/
def wBucket : QueueBucket := ⟨"us-west", "ranked", 5⟩

/-- The single attempt of processing `[wEntry1, wEntry2]` at `now = 5500` ms
with the default configuration: tolerance 150, one emitted match. -/
def wAttempt : Attempt :=
  (process_bucket {} wBucket 5500 wRand [wEntry1, wEntry2] [] 0).1.getD 0 ⟨0, [], none⟩

instance : Inhabited MatchResult :=
  ⟨⟨"", "", "", 0, [], [], 0, 0, 0⟩⟩

/-- The match emitted by the fixture attempt. -/
def wMatch : MatchResult := (wAttempt.emitted).getD default

/-! ## Claim theorems -/

/-- C7: before every match attempt in a bucket, the tolerance handed to the
team builder equals `min(mmr_band_initial + wait_sec·mmr_band_growth_per_sec,
mmr_band_max)` in exact integer arithmetic, where `wait_sec` is the truncated
whole-second age of the oldest entry still in the working list, and the
tolerance is recomputed from the new oldest entry at every iteration. -/
theorem c7_mmr_band_widening (cfg : QueueConfig) (bucket : QueueBucket) (now : Int)
    (rand : Nat → Nat) (entries : List QueueEntry) (idx : List (String × QueueBucket))
    (ctr : Nat) :
    ∀ a ∈ (process_bucket cfg bucket now rand entries idx ctr).1,
      ∃ e rest, a.entries_at = e :: rest ∧
        (∀ x ∈ a.entries_at, e.enqueued_at ≤ x.enqueued_at) ∧
        a.tolerance = min (cfg.mmr_band_initial +
          ((now - e.enqueued_at).tdiv 1000) * cfg.mmr_band_growth_per_sec)
          cfg.mmr_band_max := by
  intro a ha
  obtain ⟨_, hpair, ⟨e, rest, heq, htol⟩, _⟩ :=
    process_bucket_attempts cfg bucket now rand entries idx ctr a ha
  refine ⟨e, rest, heq, ?_, ?_⟩
  · intro x hx
    rw [heq] at hx hpair
    rcases List.mem_cons.mp hx with h | h
    · exact h ▸ le_refl _
    · exact (List.pairwise_cons.mp hpair).1 x h
  · rw [htol]
    rfl

/-- C7 witness: on the fixture run, the oldest entry waited 5 whole seconds
and the tolerance is `min(100 + 5·10, 500) = 150`. -/
theorem c7_witness :
    ∃ e rest, wAttempt.entries_at = e :: rest ∧
      (∀ x ∈ wAttempt.entries_at, e.enqueued_at ≤ x.enqueued_at) ∧
      wAttempt.tolerance = min ((100 : Int) +
        (((5500 : Int) - e.enqueued_at).tdiv 1000) * 10) 500 :=
  c7_mmr_band_widening {} wBucket 5500 wRand [wEntry1, wEntry2] [] 0 wAttempt
    (by set_option maxRecDepth 100000 in with_unfolding_all decide)

/-- C4: every match emitted by a bucket run passed the quality gate
(`quality_score ≥ min_match_quality`, default 0.6), and the parties it was
built from — the chosen prefix of the working list — have average MMRs whose
pairwise spread is within the tolerance that was active at that attempt. -/
theorem c4_quality_and_tolerance (cfg : QueueConfig) (bucket : QueueBucket) (now : Int)
    (rand : Nat → Nat) (entries : List QueueEntry) (idx : List (String × QueueBucket))
    (ctr : Nat) :
    ∀ a ∈ (process_bucket cfg bucket now rand entries idx ctr).1,
      ∀ m, a.emitted = some m →
        cfg.min_match_quality ≤ m.quality_score ∧
        ∃ k, (m.party_ids).Perm ((a.entries_at.take k).map (fun e => e.party_id)) ∧
          ∀ e1 ∈ a.entries_at.take k, ∀ e2 ∈ a.entries_at.take k,
            e1.avg_mmr - e2.avg_mmr ≤ a.tolerance := by
  intro a ha m hm
  obtain ⟨_, _, _, hemit⟩ := process_bucket_attempts cfg bucket now rand entries idx ctr a ha
  obtain ⟨hq, _, _, _, _, m0, htf, hpids, _, _, _⟩ := hemit m hm
  refine ⟨hq, ?_⟩
  obtain ⟨j, _, _, _, hval, hb, hm0, _⟩ := TeamBuilder.try_form_match_spec htf
  refine ⟨j, ?_, ?_⟩
  · rw [hpids, hm0, TeamBuilder.build_match_party_ids]
    exact (TeamBuilder.balance_teams_flatten_perm _ 2
      (TeamBuilder.toNat_pos_of_not_isEmpty hb)).map _
  · intro e1 h1 e2 h2
    exact TeamBuilder.is_valid_combination_spread hval e1 h1 e2 h2

/-- C4 witness: the fixture match has quality 1 ≥ 0.6 and zero spread within
tolerance 150. -/
theorem c4_witness :
    (QueueConfig.min_match_quality {} ≤ wMatch.quality_score) ∧
    ∃ k, (wMatch.party_ids).Perm ((wAttempt.entries_at.take k).map (fun e => e.party_id)) ∧
      ∀ e1 ∈ wAttempt.entries_at.take k, ∀ e2 ∈ wAttempt.entries_at.take k,
        e1.avg_mmr - e2.avg_mmr ≤ wAttempt.tolerance :=
  c4_quality_and_tolerance {} wBucket 5500 wRand [wEntry1, wEntry2] [] 0 wAttempt
    (by set_option maxRecDepth 100000 in with_unfolding_all decide)
    wMatch
    (by set_option maxRecDepth 100000 in with_unfolding_all decide)

/-- C5: the working list of every attempt is ordered oldest first, and an
emitted match consists of exactly the first `k` entries for the smallest
`k ≥ 2` whose prefix has enough players, MMR spread within tolerance and a
nonempty team assignment. -/
theorem c5_prefix_fairness (cfg : QueueConfig) (bucket : QueueBucket) (now : Int)
    (rand : Nat → Nat) (entries : List QueueEntry) (idx : List (String × QueueBucket))
    (ctr : Nat) :
    ∀ a ∈ (process_bucket cfg bucket now rand entries idx ctr).1,
      List.Pairwise (fun x y : QueueEntry => x.enqueued_at ≤ y.enqueued_at) a.entries_at ∧
      ∀ m, a.emitted = some m →
        ∃ k, 2 ≤ k ∧ k ≤ a.entries_at.length ∧
          bucket.team_size * 2 ≤ TeamBuilder.total_players (a.entries_at.take k) ∧
          TeamBuilder.is_valid_combination (a.entries_at.take k) bucket.team_size 2
            a.tolerance = true ∧
          (TeamBuilder.balance_teams (a.entries_at.take k) 2).isEmpty = false ∧
          (m.party_ids).Perm ((a.entries_at.take k).map (fun e => e.party_id)) ∧
          ∀ i, 2 ≤ i → i < k →
            (TeamBuilder.total_players (a.entries_at.take i) < bucket.team_size * 2 ∨
             TeamBuilder.is_valid_combination (a.entries_at.take i) bucket.team_size 2
               a.tolerance = false ∨
             (TeamBuilder.balance_teams (a.entries_at.take i) 2).isEmpty = true) := by
  intro a ha
  obtain ⟨_, hpair, _, hemit⟩ := process_bucket_attempts cfg bucket now rand entries idx ctr a ha
  refine ⟨hpair, ?_⟩
  intro m hm
  obtain ⟨_, _, _, _, _, m0, htf, hpids, _, _, _⟩ := hemit m hm
  obtain ⟨j, hj1, hj2, hj3, hj4, hb, hm0, hmin⟩ := TeamBuilder.try_form_match_spec htf
  refine ⟨j, hj1, hj2, hj3, hj4, hb, ?_, hmin⟩
  rw [hpids, hm0, TeamBuilder.build_match_party_ids]
  exact (TeamBuilder.balance_teams_flatten_perm _ 2
    (TeamBuilder.toNat_pos_of_not_isEmpty hb)).map _

/-- C5 witness: on the fixture run the match takes the first two entries
(`k = 2`), which are the whole sorted list. -/
theorem c5_witness :
    List.Pairwise (fun x y : QueueEntry => x.enqueued_at ≤ y.enqueued_at) wAttempt.entries_at ∧
    ∀ m, wAttempt.emitted = some m →
      ∃ k, 2 ≤ k ∧ k ≤ wAttempt.entries_at.length ∧
        wBucket.team_size * 2 ≤ TeamBuilder.total_players (wAttempt.entries_at.take k) ∧
        TeamBuilder.is_valid_combination (wAttempt.entries_at.take k) wBucket.team_size 2
          wAttempt.tolerance = true ∧
        (TeamBuilder.balance_teams (wAttempt.entries_at.take k) 2).isEmpty = false ∧
        (m.party_ids).Perm ((wAttempt.entries_at.take k).map (fun e => e.party_id)) ∧
        ∀ i, 2 ≤ i → i < k →
          (TeamBuilder.total_players (wAttempt.entries_at.take i) < wBucket.team_size * 2 ∨
           TeamBuilder.is_valid_combination (wAttempt.entries_at.take i) wBucket.team_size 2
             wAttempt.tolerance = false ∨
           (TeamBuilder.balance_teams (wAttempt.entries_at.take i) 2).isEmpty = true) :=
  c5_prefix_fairness {} wBucket 5500 wRand [wEntry1, wEntry2] [] 0 wAttempt
    (by set_option maxRecDepth 100000 in with_unfolding_all decide)

/-- C8: after a tick no bucket retains an entry older than `max_wait_time_sec`
(default 120 s) — the timeout filter runs before the two-entry check, so it
applies to small buckets as well — and every party of every emitted match came
from an entry that had passed the timeout filter of that very tick. -/
theorem c8_hard_timeout_bound (cfg : QueueConfig) (now1 now2 : Int) (rand : Nat → Nat)
    (s : QueueState) (ctr : Nat) :
    (∀ p ∈ (tick cfg now1 now2 rand s ctr).1.buckets, ∀ e ∈ p.2,
      now1 - e.enqueued_at ≤ cfg.max_wait_time_sec * 1000) ∧
    (∀ m ∈ (tick cfg now1 now2 rand s ctr).2.1, ∃ q ∈ s.buckets, ∀ pid ∈ m.party_ids,
      ∃ e ∈ q.2, e.party_id = pid ∧
        now1 - e.enqueued_at ≤ cfg.max_wait_time_sec * 1000) := by
  have hgo := tick_go_spec cfg now1 now2 rand s.buckets s.party_to_bucket ctr
  constructor
  · intro p hp e he
    obtain ⟨q, _, _, hsub⟩ := hgo.1 p hp
    have hmem := hsub he
    simp only [remove_timed_out_entries, List.mem_filter] at hmem
    have := of_decide_eq_true hmem.2
    omega
  · intro m hm
    obtain ⟨q, hq, hparties⟩ := hgo.2 m hm
    refine ⟨q, hq, ?_⟩
    intro pid hpid
    obtain ⟨e, he, hepid⟩ := hparties pid hpid
    simp only [remove_timed_out_entries, List.mem_filter] at he
    refine ⟨e, he.1, hepid, ?_⟩
    have := of_decide_eq_true he.2
    omega

/-- The witness state for the timeout claim: one bucket holding a party
enqueued at time 0 and the two fixture parties enqueued at 125 000 ms. -/
def wStaleEntry : QueueEntry :=
  ⟨"wstale", "us-west", "ranked", 5, 5, 1500, 0, ["s1", "s2", "s3", "s4", "s5"]⟩

/-- One bucket with a stale entry and two fresh ones. -/
def wTimeoutState : QueueState :=
  ⟨[(wBucket, [wStaleEntry, { wEntry1 with enqueued_at := 125000 },
      { wEntry2 with enqueued_at := 125000 }])], [("wstale", wBucket), ("wp1", wBucket),
      ("wp2", wBucket)]⟩

/-- C1 (failing input): enqueue one party at time 0, tick at 130 000 ms.  The
timed-out entry is removed from its bucket, but the `party_id → bucket` index
keeps the party: `is_queued` still answers `true` while no bucket holds an
entry for it, breaking the store's claimed index consistency. -/
theorem c1_timeout_leaves_stale_index :
    is_queued (tick {} 130000 130000 wRand (enqueue QueueState.empty wEntry1) 0).1 "wp1"
      = true ∧
    ∀ p ∈ (tick {} 130000 130000 wRand (enqueue QueueState.empty wEntry1) 0).1.buckets,
      ∀ e ∈ p.2, e.party_id ≠ "wp1" := by
  decide

/-- Four three-player parties (equal MMR) — a prefix of 4 parties is the first
with at least 10 players, but it carries 12. -/
def xEntryA : QueueEntry := ⟨"xa", "us-west", "ranked", 5, 3, 1500, 0, ["xa1", "xa2", "xa3"]⟩

/-- Second three-player party. -/
def xEntryB : QueueEntry := ⟨"xb", "us-west", "ranked", 5, 3, 1500, 0, ["xb1", "xb2", "xb3"]⟩

/-- Third three-player party. -/
def xEntryC : QueueEntry := ⟨"xc", "us-west", "ranked", 5, 3, 1500, 0, ["xc1", "xc2", "xc3"]⟩

/-- Fourth three-player party. -/
def xEntryD : QueueEntry := ⟨"xd", "us-west", "ranked", 5, 3, 1500, 0, ["xd1", "xd2", "xd3"]⟩

/-- A queue state holding the four three-player parties in the 5v5 bucket. -/
def c2State : QueueState :=
  ⟨[(wBucket, [xEntryA, xEntryB, xEntryC, xEntryD])],
   [("xa", wBucket), ("xb", wBucket), ("xc", wBucket), ("xd", wBucket)]⟩

/-- C2 counterexample: a tick over four three-player parties in a 5v5 bucket
emits one match whose teams hold 6 and 6 players — the sum 12 differs from
`team_size × num_teams = 10`, because the balancer assigns every party of the
chosen prefix without trimming to the team size. -/
theorem c2_counterexample :
    (tick {} 0 0 wRand c2State 0).2.1.length = 1 ∧
    ((((tick {} 0 0 wRand c2State 0).2.1.getD 0 default).teams.map
        (fun t => (t.length : Int))).sum ≠
      ((tick {} 0 0 wRand c2State 0).2.1.getD 0 default).team_size * 2) := by
  set_option maxRecDepth 100000 in with_unfolding_all decide

theorem sum_int_lengths (l : List (List String)) :
    (l.map (fun t => (t.length : Int))).sum = (((l.map (fun t => t.length)).sum : Nat) : Int) := by
  induction l with
  | nil => rfl
  | cons t ts ih => simp [ih]

theorem sum_player_ids_eq_total {l : List QueueEntry}
    (h : ∀ e ∈ l, (e.player_ids.length : Int) = e.party_size) :
    ((l.map (fun e => (e.player_ids.length : Int))).sum) = TeamBuilder.total_players l := by
  induction l with
  | nil => rfl
  | cons e es ih =>
    simp only [List.map_cons, List.sum_cons, TeamBuilder.total_players]
    rw [h e (List.mem_cons_self e es)]
    have := ih (fun x hx => h x (List.mem_cons_of_mem e hx))
    simp only [TeamBuilder.total_players] at this
    simp [this]

/-- C2 amended: for a match returned by the team builder, the flattened teams
are exactly the players of the parties in `party_ids` (as a multiset), and —
when each entry's `party_size` equals its player count — the sum of the team
sizes equals the **total player count of the chosen prefix**, which is at
least `team_size × num_teams` but may exceed it. -/
theorem c2_team_totals {entries : List QueueEntry} {ts nt tol : Int} {m : MatchResult}
    (h : TeamBuilder.try_form_match entries ts nt tol = some m)
    (hsz : ∀ e ∈ entries, (e.player_ids.length : Int) = e.party_size) :
    ∃ j, 2 ≤ j ∧ j ≤ entries.length ∧
      (m.party_ids).Perm ((entries.take j).map (fun e => e.party_id)) ∧
      (m.teams.flatten).Perm ((entries.take j).flatMap (fun e => e.player_ids)) ∧
      (m.teams.map (fun t => (t.length : Int))).sum =
        TeamBuilder.total_players (entries.take j) ∧
      ts * nt ≤ (m.teams.map (fun t => (t.length : Int))).sum := by
  obtain ⟨j, hj1, hj2, hj3, _, hb, hm, _⟩ := TeamBuilder.try_form_match_spec h
  have hnt := TeamBuilder.toNat_pos_of_not_isEmpty hb
  have hperm := TeamBuilder.balance_teams_flatten_perm (entries.take j) nt hnt
  have hpids : (m.party_ids).Perm ((entries.take j).map (fun e => e.party_id)) := by
    rw [hm, TeamBuilder.build_match_party_ids]
    exact hperm.map _
  have hteams : (m.teams.flatten).Perm ((entries.take j).flatMap (fun e => e.player_ids)) := by
    rw [hm, TeamBuilder.build_match_teams, TeamBuilder.flatten_map_flatMap]
    exact hperm.flatMap_right _
  have hflat : ∀ l : List QueueEntry, (l.flatMap (fun e => e.player_ids)).length =
      (l.map (fun e => e.player_ids.length)).sum := by
    intro l
    induction l with
    | nil => rfl
    | cons a l ihl => simp [ihl]
  have hcastsum : ∀ l : List QueueEntry,
      (((l.map (fun e => e.player_ids.length)).sum : Nat) : Int) =
        (l.map (fun e => (e.player_ids.length : Int))).sum := by
    intro l
    induction l with
    | nil => rfl
    | cons a l ihl => simp [ihl]
  have hsum : (m.teams.map (fun t => (t.length : Int))).sum =
      TeamBuilder.total_players (entries.take j) := by
    rw [sum_int_lengths]
    have hlen : (m.teams.map (fun t => t.length)).sum = m.teams.flatten.length := by
      simp [List.length_flatten]
    rw [hlen, hteams.length_eq, hflat, hcastsum]
    exact sum_player_ids_eq_total
      (fun e he => hsz e ((List.take_sublist j entries).subset he))
  exact ⟨j, hj1, hj2, hpids, hteams, hsum, by rw [hsum]; exact hj3⟩

/-- The two fixture parties as a candidate list. -/
def wPair : List QueueEntry := [wEntry1, wEntry2]

/-- The match the team builder forms from the fixture pair at tolerance 100. -/
def wPairMatch : MatchResult := (TeamBuilder.try_form_match wPair 5 2 100).getD default

/-- C2 amended witness: two five-player parties form a 5-and-5 match; the team
size sum equals the prefix's ten players. -/
theorem c2_witness :
    ∃ j, 2 ≤ j ∧ j ≤ wPair.length ∧
      (wPairMatch.party_ids).Perm ((wPair.take j).map (fun e => e.party_id)) ∧
      (wPairMatch.teams.flatten).Perm ((wPair.take j).flatMap (fun e => e.player_ids)) ∧
      (wPairMatch.teams.map (fun t => (t.length : Int))).sum =
        TeamBuilder.total_players (wPair.take j) ∧
      (5 : Int) * 2 ≤ (wPairMatch.teams.map (fun t => (t.length : Int))).sum :=
  @c2_team_totals wPair 5 2 100 wPairMatch
    (by set_option maxRecDepth 100000 in with_unfolding_all decide)
    (by decide)

/-- C3 counterexample: the party is already queued, yet a second `enqueue` of
the same entry goes through and changes the store (the bucket then holds the
entry twice) — there is no conflict failure; `enqueue` returns no error at
all. -/
theorem c3_counterexample :
    is_queued (enqueue QueueState.empty wEntry1) "wp1" = true ∧
    enqueue (enqueue QueueState.empty wEntry1) wEntry1 ≠ enqueue QueueState.empty wEntry1 := by
  decide

theorem buckets_push_found (bs : List (QueueBucket × List QueueEntry)) (b : QueueBucket)
    (e : QueueEntry) :
    (match (buckets_push bs b e).find? (fun kv => decide (kv.1 = b)) with
      | some kv => kv.2
      | none => []) =
    (match bs.find? (fun kv => decide (kv.1 = b)) with
      | some kv => kv.2
      | none => []) ++ [e] := by
  by_cases hany : bs.any (fun kv => decide (kv.1 = b))
  · simp only [buckets_push, if_pos hany]
    induction bs with
    | nil => simp at hany
    | cons kv bs ih =>
      by_cases hk : kv.1 = b
      · simp [List.find?_cons, hk]
      · simp only [List.map_cons, if_neg hk, List.find?_cons, hk, decide_eq_true_eq]
        simp only [List.any_cons, hk, decide_eq_true_eq] at hany
        have hany2 : bs.any (fun kv => decide (kv.1 = b)) := by simpa using hany
        simpa [hk] using ih hany2
  · simp only [buckets_push, if_neg hany]
    induction bs with
    | nil => simp
    | cons kv bs ih =>
      simp only [List.any_cons, Bool.or_eq_true, decide_eq_true_eq] at hany
      push_neg at hany
      have hk : ¬ kv.1 = b := hany.1
      have hany2 : ¬ bs.any (fun kv => decide (kv.1 = b)) = true := by
        simpa using hany.2
      simp only [List.cons_append, List.find?_cons, hk, decide_eq_true_eq]
      simpa [hk] using ih hany2

theorem index_set_found (idx : List (String × QueueBucket)) (pid : String) (b : QueueBucket) :
    (index_set idx pid b).find? (fun kv => decide (kv.1 = pid)) = some (pid, b) := by
  by_cases hany : idx.any (fun kv => decide (kv.1 = pid))
  · simp only [index_set, if_pos hany]
    induction idx with
    | nil => simp at hany
    | cons kv idx ih =>
      by_cases hk : kv.1 = pid
      · simp [List.find?_cons, hk]
      · simp only [List.map_cons, if_neg hk, List.find?_cons, hk, decide_eq_true_eq]
        simp only [List.any_cons, hk, decide_eq_true_eq] at hany
        have hany2 : idx.any (fun kv => decide (kv.1 = pid)) := by simpa using hany
        simpa [hk] using ih hany2
  · simp only [index_set, if_neg hany]
    induction idx with
    | nil => simp
    | cons kv idx ih =>
      simp only [List.any_cons, Bool.or_eq_true, decide_eq_true_eq] at hany
      push_neg at hany
      have hk : ¬ kv.1 = pid := hany.1
      have hany2 : ¬ idx.any (fun kv => decide (kv.1 = pid)) = true := by
        simpa using hany.2
      simp only [List.cons_append, List.find?_cons, hk, decide_eq_true_eq]
      simpa [hk] using ih hany2

/-- C3 amended: `enqueue` performs no already-queued check and cannot fail —
even for a party that `is_queued` reports as queued, it appends the entry to
the entry's bucket and repoints the index to that bucket, changing the store. -/
theorem c3_enqueue_always_appends (s : QueueState) (e : QueueEntry)
    (h : is_queued s e.party_id = true) :
    bucket_entries (enqueue s e) (bucket_of e) = bucket_entries s (bucket_of e) ++ [e] ∧
    index_lookup (enqueue s e) e.party_id = some (bucket_of e) := by
  constructor
  · simpa [bucket_entries, enqueue] using buckets_push_found s.buckets (bucket_of e) e
  · simp [index_lookup, enqueue, index_set_found]

/-- C3 amended witness: re-enqueueing the already-queued fixture party doubles
its bucket entry and keeps the index pointing at the bucket. -/
theorem c3_witness :
    bucket_entries (enqueue (enqueue QueueState.empty wEntry1) wEntry1) (bucket_of wEntry1) =
      bucket_entries (enqueue QueueState.empty wEntry1) (bucket_of wEntry1) ++ [wEntry1] ∧
    index_lookup (enqueue (enqueue QueueState.empty wEntry1) wEntry1) wEntry1.party_id =
      some (bucket_of wEntry1) :=
  c3_enqueue_always_appends (enqueue QueueState.empty wEntry1) wEntry1 (by decide)

/-- C8 witness: ticking the witness state at 130 000 ms retires the stale
entry, and the emitted match references only fresh entries. -/
theorem c8_witness :
    (∀ e ∈ ((tick {} 130000 130000 wRand wTimeoutState 0).1.buckets.getD 0 (wBucket, [])).2,
      (130000 : Int) - e.enqueued_at ≤ 120 * 1000) ∧
    ∃ q ∈ wTimeoutState.buckets,
      ∀ pid ∈ ((tick {} 130000 130000 wRand wTimeoutState 0).2.1.getD 0 default).party_ids,
        ∃ e ∈ q.2, e.party_id = pid ∧ (130000 : Int) - e.enqueued_at ≤ 120 * 1000 := by
  have h := c8_hard_timeout_bound {} 130000 130000 wRand wTimeoutState 0
  constructor
  · intro e he
    exact h.1 _ (by set_option maxRecDepth 100000 in with_unfolding_all decide) e he
  · exact h.2 _ (by set_option maxRecDepth 100000 in with_unfolding_all decide)

/-! ## UUID formatting lemmas -/

theorem hexChar_isHex {n : Nat} (h : n < 16) : isHexL (hexChar n) = true := by
  interval_cases n <;> decide

theorem hexDigitsGo_mono :
    ∀ (n f1 f2 : Nat), n ≤ f1 → n ≤ f2 → hexDigitsGo f1 n = hexDigitsGo f2 n := by
  intro n
  induction n using Nat.strong_induction_on with
  | _ n ih =>
    intro f1 f2 h1 h2
    match n, f1, f2 with
    | 0, 0, 0 => rfl
    | 0, 0, f2 + 1 => simp [hexDigitsGo]
    | 0, f1 + 1, 0 => simp [hexDigitsGo]
    | 0, f1 + 1, f2 + 1 => simp [hexDigitsGo]
    | n + 1, f1 + 1, f2 + 1 =>
      simp only [hexDigitsGo, Nat.succ_ne_zero, if_neg]
      have hlt : (n + 1) / 16 < n + 1 := Nat.div_lt_self (by omega) (by omega)
      rw [ih ((n + 1) / 16) hlt f1 f2 (by omega) (by omega)]

theorem hexDigits_eq_cons {n : Nat} (h : 0 < n) :
    hexDigits n = hexDigits (n / 16) ++ [hexChar (n % 16)] := by
  match n, h with
  | n + 1, _ =>
    show hexDigitsGo (n + 1) (n + 1) = hexDigitsGo ((n + 1) / 16) ((n + 1) / 16) ++ _
    have hlt : (n + 1) / 16 < n + 1 := Nat.div_lt_self (by omega) (by omega)
    have hstep : hexDigitsGo (n + 1) (n + 1) =
        hexDigitsGo n ((n + 1) / 16) ++ [hexChar ((n + 1) % 16)] := by
      simp [hexDigitsGo]
    rw [hstep, hexDigitsGo_mono ((n + 1) / 16) n ((n + 1) / 16) (by omega) (le_refl _)]

theorem hexDigits_small {n : Nat} (h1 : 0 < n) (h2 : n < 16) :
    hexDigits n = [hexChar n] := by
  rw [hexDigits_eq_cons h1]
  have h16 : n / 16 = 0 := Nat.div_eq_of_lt h2
  have hm : n % 16 = n := Nat.mod_eq_of_lt h2
  rw [h16, hm]
  rfl

theorem mem_hexDigits_isHex :
    ∀ (n : Nat), ∀ c ∈ hexDigits n, isHexL c = true := by
  intro n
  induction n using Nat.strong_induction_on with
  | _ n ih =>
    intro c hc
    match n with
    | 0 => simp [hexDigits, hexDigitsGo] at hc
    | n + 1 =>
      rw [hexDigits_eq_cons (by omega)] at hc
      rcases List.mem_append.mp hc with h | h
      · exact ih ((n + 1) / 16) (Nat.div_lt_self (by omega) (by omega)) c h
      · have : c = hexChar ((n + 1) % 16) := by simpa using h
        rw [this]
        exact hexChar_isHex (Nat.mod_lt _ (by omega))

theorem hexDigits_length_le :
    ∀ (n w : Nat), n < 16 ^ w → (hexDigits n).length ≤ w := by
  intro n
  induction n using Nat.strong_induction_on with
  | _ n ih =>
    intro w hw
    match n with
    | 0 => simp [hexDigits, hexDigitsGo]
    | n + 1 =>
      match w with
      | 0 => simp at hw
      | w + 1 =>
        rw [hexDigits_eq_cons (by omega)]
        have hdiv : (n + 1) / 16 < 16 ^ w := by
          rw [Nat.div_lt_iff_lt_mul (by omega)]
          calc n + 1 < 16 ^ (w + 1) := hw
            _ = 16 ^ w * 16 := by ring
        have := ih ((n + 1) / 16) (Nat.div_lt_self (by omega) (by omega)) w hdiv
        simp only [List.length_append, List.length_cons, List.length_nil]
        omega

theorem hexDigits_length_gt :
    ∀ (n w : Nat), 16 ^ w ≤ n → w < (hexDigits n).length := by
  intro n
  induction n using Nat.strong_induction_on with
  | _ n ih =>
    intro w hw
    match n with
    | 0 =>
      exfalso
      have := Nat.pos_pow_of_pos w (show 0 < 16 by omega)
      omega
    | n + 1 =>
      rw [hexDigits_eq_cons (by omega)]
      simp only [List.length_append, List.length_cons, List.length_nil]
      match w with
      | 0 => omega
      | w + 1 =>
        have hdiv : 16 ^ w ≤ (n + 1) / 16 := by
          rw [Nat.le_div_iff_mul_le (by omega)]
          calc 16 ^ w * 16 = 16 ^ (w + 1) := by ring
            _ ≤ n + 1 := hw
        have := ih ((n + 1) / 16) (Nat.div_lt_self (by omega) (by omega)) w hdiv
        omega

theorem hexPad_length {w n : Nat} (h : n < 16 ^ w) : (hexPad w n).length = w := by
  have := hexDigits_length_le n w h
  simp only [hexPad, List.length_append, List.length_replicate]
  omega

theorem mem_hexPad_isHex {w n : Nat} : ∀ c ∈ hexPad w n, isHexL c = true := by
  intro c hc
  rcases List.mem_append.mp hc with h | h
  · have : c = hexChar 0 := List.eq_of_mem_replicate h
    rw [this]
    decide
  · exact mem_hexDigits_isHex n c h

theorem hexPad_all_hex (w n : Nat) : (hexPad w n).all isHexL = true :=
  List.all_eq_true.mpr (fun c hc => mem_hexPad_isHex c hc)

/-- For `16^3 ≤ v < 16^4` the padded field is the four hex digits of `v` and
starts with the digit `v / 4096`. -/
theorem hexPad4_head {v : Nat} (h1 : 4096 ≤ v) (h2 : v < 65536) :
    (hexPad 4 v).take 1 = [hexChar (v / 4096)] := by
  have hlen4 : (hexDigits v).length = 4 := by
    have hle := hexDigits_length_le v 4 (by norm_num; omega)
    have hgt := hexDigits_length_gt v 3 (by norm_num; omega)
    omega
  have hpad : hexPad 4 v = hexDigits v := by
    simp [hexPad, hlen4]
  rw [hpad]
  have e0 : hexDigits v = hexDigits (v / 16) ++ [hexChar (v % 16)] :=
    hexDigits_eq_cons (by omega)
  have e1 : hexDigits (v / 16) = hexDigits (v / 256) ++ [hexChar (v / 16 % 16)] := by
    have := hexDigits_eq_cons (n := v / 16) (by omega)
    rwa [Nat.div_div_eq_div_mul] at this
  have e2 : hexDigits (v / 256) = hexDigits (v / 4096) ++ [hexChar (v / 256 % 16)] := by
    have := hexDigits_eq_cons (n := v / 256) (by omega)
    rwa [Nat.div_div_eq_div_mul] at this
  have e3 : hexDigits (v / 4096) = [hexChar (v / 4096)] :=
    hexDigits_small (by omega) (by omega)
  rw [e0, e1, e2, e3]
  rfl

/-- `(w &&& 0x0FFF) ||| 0x4000` is `16384 + w % 4096`. -/
theorem mask_or_version (w : Nat) : (w &&& 0x0FFF) ||| 0x4000 = 16384 + w % 4096 := by
  have hand : w &&& 0x0FFF = w % 4096 := by
    have h := Nat.and_pow_two_sub_one_eq_mod w 12
    norm_num at h
    exact h
  have hb : w % 4096 < 2 ^ 14 := lt_of_lt_of_le (Nat.mod_lt w (by norm_num)) (by norm_num)
  have hor := Nat.mul_add_lt_is_or hb 1
  rw [hand, Nat.lor_comm]
  norm_num at hor
  exact hor.symm

/-- `(w &&& 0x3FFF) ||| 0x8000` is `32768 + w % 16384`. -/
theorem mask_or_variant (w : Nat) : (w &&& 0x3FFF) ||| 0x8000 = 32768 + w % 16384 := by
  have hand : w &&& 0x3FFF = w % 16384 := by
    have h := Nat.and_pow_two_sub_one_eq_mod w 14
    norm_num at h
    exact h
  have hb : w % 16384 < 2 ^ 15 := lt_of_lt_of_le (Nat.mod_lt w (by norm_num)) (by norm_num)
  have hor := Nat.mul_add_lt_is_or hb 1
  rw [hand, Nat.lor_comm]
  norm_num at hor
  exact hor.symm

theorem mask_16 (w : Nat) : w &&& 0xFFFF = w % 65536 := by
  have h := Nat.and_pow_two_sub_one_eq_mod w 16
  norm_num at h
  exact h

theorem take_one_cons {α : Type} (a : α) (l : List α) : List.take 1 (a :: l) = [a] := rfl

theorem drop_one_cons {α : Type} (a : α) (l : List α) : List.drop 1 (a :: l) = l := rfl

/-- Every match id built from six 32-bit draws satisfies the UUID v4 syntax. -/
theorem make_match_id_isUuidV4 {w1 w2 w3 w4 w5 w6 : Nat}
    (h1 : w1 < 4294967296) (h5 : w5 < 4294967296) :
    isUuidV4 (make_match_id w1 w2 w3 w4 w5 w6) = true := by
  have l1 : (hexPad 8 w1).length = 8 := hexPad_length (by norm_num; omega)
  have l2 : (hexPad 4 (w2 &&& 0xFFFF)).length = 4 := by
    apply hexPad_length
    rw [mask_16]
    have := Nat.mod_lt w2 (show 0 < 65536 by norm_num)
    norm_num
    omega
  have hv3 : (w3 &&& 0x0FFF) ||| 0x4000 = 16384 + w3 % 4096 := mask_or_version w3
  have hb3 : w3 % 4096 < 4096 := Nat.mod_lt w3 (by norm_num)
  have l3 : (hexPad 4 ((w3 &&& 0x0FFF) ||| 0x4000)).length = 4 := by
    apply hexPad_length
    rw [hv3]
    norm_num
    omega
  have hv4 : (w4 &&& 0x3FFF) ||| 0x8000 = 32768 + w4 % 16384 := mask_or_variant w4
  have hb4 : w4 % 16384 < 16384 := Nat.mod_lt w4 (by norm_num)
  have l4 : (hexPad 4 ((w4 &&& 0x3FFF) ||| 0x8000)).length = 4 := by
    apply hexPad_length
    rw [hv4]
    norm_num
    omega
  have l5 : (hexPad 8 w5).length = 8 := hexPad_length (by norm_num; omega)
  have l6 : (hexPad 4 (w6 &&& 0xFFFF)).length = 4 := by
    apply hexPad_length
    rw [mask_16]
    have := Nat.mod_lt w6 (show 0 < 65536 by norm_num)
    norm_num
    omega
  have hg3 : (hexPad 4 ((w3 &&& 0x0FFF) ||| 0x4000)).take 1 = ['4'] := by
    rw [hv3]
    have := hexPad4_head (v := 16384 + w3 % 4096) (by omega) (by omega)
    have hdig : (16384 + w3 % 4096) / 4096 = 4 := by omega
    rw [this, hdig]
    rfl
  have hg4 : (hexPad 4 ((w4 &&& 0x3FFF) ||| 0x8000)).take 1 = ['8'] ∨
      (hexPad 4 ((w4 &&& 0x3FFF) ||| 0x8000)).take 1 = ['9'] ∨
      (hexPad 4 ((w4 &&& 0x3FFF) ||| 0x8000)).take 1 = ['a'] ∨
      (hexPad 4 ((w4 &&& 0x3FFF) ||| 0x8000)).take 1 = ['b'] := by
    rw [hv4]
    have hhead := hexPad4_head (v := 32768 + w4 % 16384) (by omega) (by omega)
    rw [hhead]
    have hd1 : 8 ≤ (32768 + w4 % 16384) / 4096 := by omega
    have hd2 : (32768 + w4 % 16384) / 4096 < 12 := by omega
    set d := (32768 + w4 % 16384) / 4096 with hd
    interval_cases d
    · exact Or.inl (by decide)
    · exact Or.inr (Or.inl (by decide))
    · exact Or.inr (Or.inr (Or.inl (by decide)))
    · exact Or.inr (Or.inr (Or.inr (by decide)))
  simp only [make_match_id, isUuidV4, String.data]
  simp only [List.append_assoc, List.cons_append, List.singleton_append, List.nil_append]
  simp only [List.take_left' l1, List.drop_left' l1]
  simp only [take_one_cons, drop_one_cons, List.nil_append]
  simp only [List.take_left' l2, List.drop_left' l2]
  simp only [take_one_cons, drop_one_cons, List.nil_append]
  simp only [List.take_left' l3, List.drop_left' l3]
  simp only [take_one_cons, drop_one_cons, List.nil_append]
  simp only [List.take_left' l4, List.drop_left' l4]
  simp only [take_one_cons, drop_one_cons, List.nil_append]
  simp only [List.length_append, List.length_cons, l1, l2, l3, l4, l5, l6,
    List.all_append, hexPad_all_hex, Bool.and_true, Bool.true_and, hg3]
  rcases hg4 with h | h | h | h <;> simp [h]

/-- Every match emitted by a tick carries an id built from six consecutive
draws of the stream. -/
theorem tick_go_match_ids (cfg : QueueConfig) (now1 now2 : Int) (rand : Nat → Nat) :
    ∀ (bs : List (QueueBucket × List QueueEntry)) (idx : List (String × QueueBucket)) (ctr : Nat),
      ∀ m ∈ (tick_go cfg now1 now2 rand bs idx ctr).2.2.2,
        ∃ c, m.match_id = make_match_id (rand c) (rand (c + 1)) (rand (c + 2))
          (rand (c + 3)) (rand (c + 4)) (rand (c + 5)) := by
  intro bs
  induction bs with
  | nil => intro idx ctr m hm; simp [tick_go] at hm
  | cons q bs ih =>
    intro idx ctr m hm
    obtain ⟨b, es⟩ := q
    rw [tick_go] at hm
    by_cases hlen : (remove_timed_out_entries cfg es now1).length < 2
    · rw [if_pos hlen] at hm
      exact ih _ _ m hm
    · rw [if_neg hlen] at hm
      rcases List.mem_append.mp hm with h1 | h2
      · obtain ⟨a, ha, hae⟩ := List.mem_filterMap.mp h1
        obtain ⟨_, _, _, hemit⟩ := process_bucket_attempts cfg b now2 rand _ idx ctr a ha
        obtain ⟨_, _, _, _, hid, _⟩ := hemit m hae
        exact hid
      · exact ih _ _ m h2

/-- C9 amended: every match id emitted by a single engine instance (one draw
stream) satisfies the UUID v4 syntax
`xxxxxxxx-xxxx-4xxx-[89ab]xxx-xxxxxxxxxxxx`. -/
theorem c9_uuid_syntax (cfg : QueueConfig) (now1 now2 : Int) (rand : Nat → Nat)
    (s : QueueState) (ctr : Nat) (hr : ∀ i, rand i < 4294967296) :
    ∀ m ∈ (tick cfg now1 now2 rand s ctr).2.1, isUuidV4 m.match_id = true := by
  intro m hm
  obtain ⟨c, hc⟩ := tick_go_match_ids cfg now1 now2 rand s.buckets s.party_to_bucket ctr m hm
  rw [hc]
  exact make_match_id_isUuidV4 (hr c) (hr (c + 4))

/-- Third fixture party for the duplicate-id run. -/
def wEntry3 : QueueEntry := ⟨"wp3", "us-west", "ranked", 5, 5, 1500, 0, ["c1", "c2", "c3", "c4", "c5"]⟩

/-- Fourth fixture party for the duplicate-id run. -/
def wEntry4 : QueueEntry := ⟨"wp4", "us-west", "ranked", 5, 5, 1500, 0, ["d1", "d2", "d3", "d4", "d5"]⟩

/-- Four five-player parties in one bucket: one tick emits two matches. -/
def c9State : QueueState :=
  ⟨[(wBucket, [wEntry1, wEntry2, wEntry3, wEntry4])],
   [("wp1", wBucket), ("wp2", wBucket), ("wp3", wBucket), ("wp4", wBucket)]⟩

/-- C9 counterexample: nothing enforces distinctness — the id is rebuilt from
whatever the stream yields, so an engine whose stream repeats (here: the
all-zero stream) emits two matches in a single tick with the *same* id.
Distinctness is only probabilistic, not a property of the code. -/
theorem c9_counterexample :
    ((tick {} 0 0 wRand c9State 0).2.1.map (fun m => m.match_id)) =
      ["00000000-0000-4000-8000-000000000000", "00000000-0000-4000-8000-000000000000"] ∧
    ¬ ((tick {} 0 0 wRand c9State 0).2.1.map (fun m => m.match_id)).Pairwise
        (fun a b => a ≠ b) := by
  constructor
  · set_option maxRecDepth 100000 in with_unfolding_all decide
  · set_option maxRecDepth 100000 in with_unfolding_all decide

/-- C9 witness: the fixture tick emits a match and its id passes the syntax
check. -/
theorem c9_witness :
    isUuidV4 ((tick {} 130000 130000 wRand wTimeoutState 0).2.1.getD 0 default).match_id
      = true :=
  c9_uuid_syntax {} 130000 130000 wRand wTimeoutState 0 (by intro i; simp [wRand]) _
    (by set_option maxRecDepth 100000 in with_unfolding_all decide)

/-! ## Division-safety lemmas -/

namespace TeamBuilder

theorem calculate_avg_mmrC_eq (entries : List QueueEntry) :
    calculate_avg_mmrC entries = some (calculate_avg_mmr entries) := by
  simp only [calculate_avg_mmrC, calculate_avg_mmr]
  by_cases he : entries.isEmpty
  · simp [he]
  · simp only [he, if_neg, Bool.false_eq_true, ite_false]
    by_cases htp : total_players entries > 0
    · simp [htp, tdivChecked, show total_players entries ≠ 0 by omega]
    · simp [htp]

theorem calculate_mmr_varianceC_eq (entries : List QueueEntry) :
    calculate_mmr_varianceC entries = some (calculate_mmr_variance entries) := by
  simp only [calculate_mmr_varianceC, calculate_mmr_variance, calculate_avg_mmrC_eq,
    Option.bind_some]
  by_cases he : entries.isEmpty
  · simp [he]
  · simp only [he, Bool.false_eq_true, ite_false, Option.bind_eq_bind, Option.some_bind]
    by_cases htp : total_players entries > 0
    · simp [htp, tdivChecked, show total_players entries ≠ 0 by omega]
    · simp [htp]

theorem team_mmr_stepC_eq (entries : List QueueEntry) (acc : List Int) (team : List String) :
    team_mmr_stepC entries acc team = some (team_mmr_step entries acc team) := by
  unfold team_mmr_stepC team_mmr_step tdivChecked
  by_cases hs : (team.foldl (team_mmr_acc entries) (0, 0)).2 > 0
  · rw [if_pos hs, if_pos hs, if_neg (show ¬ (team.foldl (team_mmr_acc entries) (0, 0)).2 = 0
      by omega)]
    rfl
  · rw [if_neg hs, if_neg hs]
    rfl

theorem foldlM_team_mmrs (entries : List QueueEntry) :
    ∀ (teams : List (List String)) (acc : List Int),
      List.foldlM (team_mmr_stepC entries) acc teams =
        some (List.foldl (team_mmr_step entries) acc teams) := by
  intro teams
  induction teams with
  | nil => intro acc; rfl
  | cons t ts ih =>
    intro acc
    simp only [List.foldlM_cons, List.foldl_cons, team_mmr_stepC_eq, Option.bind_eq_bind,
      Option.some_bind]
    exact ih _

theorem calculate_match_qualityC_eq (m : MatchResult) (entries : List QueueEntry) :
    calculate_match_qualityC m entries = some (calculate_match_quality m entries) := by
  simp only [calculate_match_qualityC, calculate_match_quality, Option.bind_eq_bind]
  rw [foldlM_team_mmrs]
  simp

theorem build_matchC_eq {teams : List (List QueueEntry)} {comb entries : List QueueEntry}
    (h : total_players teams.flatten ≠ 0) :
    build_matchC teams comb entries = some (build_match teams comb entries) := by
  simp only [build_matchC, build_match, tdivChecked, h, if_neg, ite_false,
    Option.bind_eq_bind, Option.some_bind, calculate_mmr_varianceC_eq,
    calculate_match_qualityC_eq]
  rfl

theorem total_players_perm {l1 l2 : List QueueEntry} (h : l1.Perm l2) :
    total_players l1 = total_players l2 :=
  List.Perm.sum_eq (List.Perm.map (fun e => e.party_size) h)

theorem length_le_total_players {l : List QueueEntry} (h : ∀ e ∈ l, 1 ≤ e.party_size) :
    (l.length : Int) ≤ total_players l := by
  induction l with
  | nil => simp [total_players]
  | cons e es ih =>
    have h1 := h e (List.mem_cons_self e es)
    have h2 := ih (fun x hx => h x (List.mem_cons_of_mem e hx))
    simp only [total_players, List.map_cons, List.sum_cons, List.length_cons] at h2 ⊢
    push_cast
    omega

theorem try_combosC_eq {entries : List QueueEntry} {ts nt tol needed : Int}
    (h : ∀ e ∈ entries, 1 ≤ e.party_size) :
    ∀ (fuel k : Nat), 2 ≤ k →
      try_combosC entries ts nt tol needed fuel k =
        some (try_combos entries ts nt tol needed fuel k) := by
  intro fuel
  induction fuel with
  | zero => intro k _; rfl
  | succ fuel ih =>
    intro k hk
    simp only [try_combosC, try_combos]
    by_cases hle : k ≤ entries.length
    · simp only [if_pos hle]
      by_cases hp : total_players (entries.take k) < needed
      · simp only [if_pos hp]
        exact ih (k + 1) (by omega)
      · simp only [if_neg hp]
        by_cases hv : is_valid_combination (entries.take k) ts nt tol
        · simp only [hv, not_true_eq_false, ite_false]
          by_cases hb : (balance_teams (entries.take k) nt).isEmpty
          · simp only [if_pos hb]
            exact ih (k + 1) (by omega)
          · simp only [if_neg hb]
            have hnt := toNat_pos_of_not_isEmpty (by simpa using hb)
            have hperm := balance_teams_flatten_perm (entries.take k) nt hnt
            have hlen : (entries.take k).length = k := List.length_take_of_le hle
            have hmem : ∀ e ∈ entries.take k, 1 ≤ e.party_size :=
              fun e he => h e ((List.take_sublist k entries).subset he)
            have hpos : total_players (balance_teams (entries.take k) nt).flatten ≠ 0 := by
              rw [total_players_perm hperm]
              have := length_le_total_players hmem
              rw [hlen] at this
              have h2 : (2 : Int) ≤ (k : Int) := by exact_mod_cast hk
              omega
            rw [build_matchC_eq hpos]
            rfl
        · simp only [hv, not_false_eq_true, ite_true]
          exact ih (k + 1) (by omega)
    · simp [hle]

/-- C10: with every party of size at least one, evaluating `try_form_match`
performs no division by zero: the guarded divisions are protected by their
positive-divisor checks, and the unguarded average-MMR division has a positive
divisor because any selected combination holds at least two parties of at
least one player each.  Formally, the division-checked run agrees with the
plain one (it never signals a zero divisor). -/
theorem c10_no_division_by_zero (entries : List QueueEntry) (ts nt tol : Int)
    (h : ∀ e ∈ entries, 1 ≤ e.party_size) :
    try_form_matchC entries ts nt tol = some (try_form_match entries ts nt tol) := by
  simp only [try_form_matchC, try_form_match]
  by_cases he : entries.isEmpty
  · simp [he]
  · simp only [he, Bool.false_eq_true, ite_false]
    by_cases htp : total_players entries < ts * nt
    · simp [htp]
    · simp only [if_neg htp]
      exact try_combosC_eq h entries.length 2 (le_refl 2)

/-- C10 witness: the checked run over the fixture pair returns the plain
match. -/
theorem c10_witness :
    try_form_matchC wPair 5 2 100 = some (try_form_match wPair 5 2 100) :=
  c10_no_division_by_zero wPair 5 2 100 (by decide)

/-! ## Quality-formula lemmas -/

theorem calculate_mmr_variance_nonneg (l : List QueueEntry) :
    0 ≤ calculate_mmr_variance l := by
  unfold calculate_mmr_variance
  by_cases he : l.isEmpty
  · simp [he]
  · simp only [he, Bool.false_eq_true, ite_false]
    split
    · exact Int.ofNat_nonneg _
    · exact le_refl 0

theorem team_fold_acc (entries : List QueueEntry) :
    ∀ (team : List String) (a c : Int),
      (∀ p ∈ team, (entries.find? (fun x => x.player_ids.contains p)).isSome = true) →
      team.foldl (team_mmr_acc entries) (a, c) =
        (a + (team.map (spec_player_party_mmr entries)).sum, c + team.length) := by
  intro team
  induction team with
  | nil => intro a c _; simp
  | cons p ps ih =>
    intro a c hres
    have hp := hres p (List.mem_cons_self _ _)
    obtain ⟨e, he⟩ := Option.isSome_iff_exists.mp hp
    have hstep : team_mmr_acc entries (a, c) p = (a + e.avg_mmr, c + 1) := by
      unfold team_mmr_acc
      rw [he]
    simp only [List.foldl_cons, hstep]
    rw [ih _ _ (fun q hq => hres q (List.mem_cons_of_mem _ hq))]
    have hspec : spec_player_party_mmr entries p = e.avg_mmr := by
      unfold spec_player_party_mmr
      rw [he]
    simp only [List.map_cons, List.sum_cons, hspec, List.length_cons]
    refine Prod.ext ?_ ?_
    · simp only []
      ring
    · simp only []
      push_cast
      ring

/-- When a nonempty team's players all resolve in the entry list, the step of
the quality computation appends exactly the spec's per-player team average. -/
theorem team_mmr_step_resolved (entries : List QueueEntry) (acc : List Int) (team : List String)
    (hne : team ≠ [])
    (hres : ∀ p ∈ team, (entries.find? (fun x => x.player_ids.contains p)).isSome = true) :
    team_mmr_step entries acc team = acc ++ [spec_team_mmr entries team] := by
  unfold team_mmr_step
  rw [team_fold_acc entries team 0 0 hres]
  have hlen : 0 < team.length := List.length_pos.mpr hne
  have hcond : ((0 : Int) + (team.length : Int)) > 0 := by omega
  rw [if_pos hcond]
  simp [spec_team_mmr]

theorem assign_preserves_nonempty (l : List QueueEntry) :
    ∀ acc : List (List QueueEntry) × List Int,
      (∀ t ∈ acc.1, t ≠ []) → ∀ t ∈ (l.foldl assign_entry acc).1, t ≠ [] := by
  induction l with
  | nil => intro acc h; exact h
  | cons e es ih =>
    intro acc h
    apply ih
    intro t ht
    simp only [assign_entry] at ht
    rcases List.mem_or_eq_of_mem_set ht with h1 | h2
    · exact h t h1
    · rw [h2]
      intro hc
      have := congrArg List.length hc
      simp at this

/-- With at least two parties, all of positive size and positive MMR, the
two-team greedy balancing puts the first (highest-MMR) party on team 0 and the
second on team 1, so both teams come out nonempty. -/
theorem balance_teams_two {l : List QueueEntry} (hlen : 2 ≤ l.length)
    (hmmr : ∀ e ∈ l, 1 ≤ e.avg_mmr) (hsz : ∀ e ∈ l, 1 ≤ e.party_size) :
    ∃ t0 t1, balance_teams l 2 = [t0, t1] ∧ t0 ≠ [] ∧ t1 ≠ [] := by
  have hperm : (l.insertionSort (fun a b => b.avg_mmr ≤ a.avg_mmr)).Perm l :=
    List.perm_insertionSort _ _
  have hlen2 : 2 ≤ (l.insertionSort (fun a b => b.avg_mmr ≤ a.avg_mmr)).length := by
    rw [hperm.length_eq]
    exact hlen
  have hbt0 : balance_teams l 2 = ((l.insertionSort (fun a b => b.avg_mmr ≤ a.avg_mmr)).foldl
      assign_entry ([[], []], [0, 0])).1 := by
    simp [balance_teams, List.replicate]
  match hE : l.insertionSort (fun a b => b.avg_mmr ≤ a.avg_mmr) with
  | [] => rw [hE] at hlen2; simp at hlen2
  | [x] => rw [hE] at hlen2; simp at hlen2
  | x :: y :: zs =>
    rw [hE] at hbt0
    have hx : x ∈ l := hperm.subset (by rw [hE]; exact List.mem_cons_self _ _)
    have hxm : 1 ≤ x.avg_mmr * x.party_size := by
      have h1 := hmmr x hx
      have h2 := hsz x hx
      nlinarith
    have hstep1 : assign_entry ([[], []], [0, 0]) x =
        ([[x], []], [x.avg_mmr * x.party_size, 0]) := by
      have hfm : find_min_team [0, 0] = 0 := by decide
      simp [assign_entry, hfm]
    have hfm2 : find_min_team [x.avg_mmr * x.party_size, 0] = 1 := by
      simp only [find_min_team, List.foldl_cons, List.foldl_nil, min_scan_step]
      rw [if_pos (by omega)]
    have hstep2 : assign_entry ([[x], []], [x.avg_mmr * x.party_size, 0]) y =
        ([[x], [y]], [x.avg_mmr * x.party_size, y.avg_mmr * y.party_size]) := by
      simp [assign_entry, hfm2]
    have hfold : balance_teams l 2 = (zs.foldl assign_entry
        (([[x], [y]], [x.avg_mmr * x.party_size, y.avg_mmr * y.party_size]) :
          List (List QueueEntry) × List Int)).1 := by
      rw [hbt0]
      simp only [List.foldl_cons]
      rw [hstep1, hstep2]
    have hne : ∀ t ∈ balance_teams l 2, t ≠ [] := by
      rw [hfold]
      apply assign_preserves_nonempty
      intro t ht
      rcases List.mem_cons.mp ht with h1 | h1
      · rw [h1]; simp
      · rcases List.mem_cons.mp h1 with h2 | h2
        · rw [h2]; simp
        · simp at h2
    have hlenf : (balance_teams l 2).length = 2 := by
      rw [hfold, (foldl_assign_lengths zs _).1]
      rfl
    match hF : balance_teams l 2 with
    | [t0, t1] =>
      refine ⟨t0, t1, rfl, ?_, ?_⟩
      · exact hne t0 (hF ▸ List.mem_cons_self _ _)
      · exact hne t1 (hF ▸ List.mem_cons_of_mem _ (List.mem_cons_self _ _))
    | [] => rw [hF] at hlenf; simp at hlenf
    | [t0] => rw [hF] at hlenf; simp at hlenf
    | t0 :: t1 :: t2 :: ts => rw [hF] at hlenf; simp at hlenf

end TeamBuilder

/-- C6: for every match the team builder produces (two teams, all parties of
positive size and positive MMR, nonempty player lists), the quality score is
exactly the spec's formula
`0.5·balance + 0.3·(1 − clamp(variance,0,1000)/1000) + 0.2·wait_fairness` with
`balance = 1 − clamp(|teamA_mmr − teamB_mmr|,0,500)/500`, team MMRs being the
per-player integer averages of the members' party average MMRs, wait-fairness
the constant 1; and the score lies in [0, 1]. -/
theorem c6_quality_score_formula {entries : List QueueEntry} {ts tol : Int} {m : MatchResult}
    (h : TeamBuilder.try_form_match entries ts 2 tol = some m)
    (hmmr : ∀ e ∈ entries, 1 ≤ e.avg_mmr)
    (hsz : ∀ e ∈ entries, 1 ≤ e.party_size)
    (hpl : ∀ e ∈ entries, e.player_ids ≠ []) :
    m.quality_score = spec_quality_score entries m ∧
    0 ≤ m.quality_score ∧ m.quality_score ≤ 1 := by
  obtain ⟨j, hj1, hj2, _, _, hbne, hm, _⟩ := TeamBuilder.try_form_match_spec h
  have hcombsub : ∀ e ∈ entries.take j, e ∈ entries :=
    fun e he => (List.take_sublist j entries).subset he
  have hcomblen : 2 ≤ (entries.take j).length := by
    rw [List.length_take_of_le hj2]
    exact hj1
  obtain ⟨t0, t1, hbt, ht0, ht1⟩ := TeamBuilder.balance_teams_two hcomblen
    (fun e he => hmmr e (hcombsub e he)) (fun e he => hsz e (hcombsub e he))
  rw [hbt] at hm
  subst hm
  have hflatperm : (([t0, t1] : List (List QueueEntry)).flatten).Perm (entries.take j) := by
    rw [← hbt]
    exact TeamBuilder.balance_teams_flatten_perm _ 2 (by simp)
  have hmem0 : ∀ e ∈ t0, e ∈ entries := by
    intro e he
    apply hcombsub
    apply hflatperm.subset
    simp [he]
  have hmem1 : ∀ e ∈ t1, e ∈ entries := by
    intro e he
    apply hcombsub
    apply hflatperm.subset
    simp [he]
  have hteams : (TeamBuilder.build_match [t0, t1] (entries.take j) entries).teams =
      [t0.flatMap (fun e => e.player_ids), t1.flatMap (fun e => e.player_ids)] := by
    rw [TeamBuilder.build_match_teams]
    rfl
  have hvar : (TeamBuilder.build_match [t0, t1] (entries.take j) entries).mmr_variance =
      TeamBuilder.calculate_mmr_variance (entries.take j) :=
    TeamBuilder.build_match_variance _ _ _
  have hvarpos : 0 ≤ (TeamBuilder.build_match [t0, t1] (entries.take j) entries).mmr_variance := by
    rw [hvar]
    exact TeamBuilder.calculate_mmr_variance_nonneg _
  have hres0 : ∀ p ∈ t0.flatMap (fun e => e.player_ids),
      (entries.find? (fun x => x.player_ids.contains p)).isSome = true := by
    intro p hp
    obtain ⟨e, he, hpe⟩ := List.mem_flatMap.mp hp
    rw [List.find?_isSome]
    exact ⟨e, hmem0 e he, by simpa using hpe⟩
  have hres1 : ∀ p ∈ t1.flatMap (fun e => e.player_ids),
      (entries.find? (fun x => x.player_ids.contains p)).isSome = true := by
    intro p hp
    obtain ⟨e, he, hpe⟩ := List.mem_flatMap.mp hp
    rw [List.find?_isSome]
    exact ⟨e, hmem1 e he, by simpa using hpe⟩
  have hf0ne : t0.flatMap (fun e => e.player_ids) ≠ [] := by
    obtain ⟨e, he⟩ := List.exists_mem_of_ne_nil t0 ht0
    obtain ⟨q, hq⟩ := List.exists_mem_of_ne_nil e.player_ids (hpl e (hmem0 e he))
    exact List.ne_nil_of_mem (List.mem_flatMap.mpr ⟨e, he, hq⟩)
  have hf1ne : t1.flatMap (fun e => e.player_ids) ≠ [] := by
    obtain ⟨e, he⟩ := List.exists_mem_of_ne_nil t1 ht1
    obtain ⟨q, hq⟩ := List.exists_mem_of_ne_nil e.player_ids (hpl e (hmem1 e he))
    exact List.ne_nil_of_mem (List.mem_flatMap.mpr ⟨e, he, hq⟩)
  set tA := spec_team_mmr entries (t0.flatMap (fun e => e.player_ids)) with htA
  set tB := spec_team_mmr entries (t1.flatMap (fun e => e.player_ids)) with htB
  have hmmrs : (TeamBuilder.build_match [t0, t1] (entries.take j) entries).teams.foldl
      (TeamBuilder.team_mmr_step entries) [] = [tA, tB] := by
    rw [hteams]
    simp only [List.foldl_cons, List.foldl_nil]
    rw [TeamBuilder.team_mmr_step_resolved entries [] _ hf0ne hres0,
      TeamBuilder.team_mmr_step_resolved entries _ _ hf1ne hres1]
    rfl
  set Mvar := (TeamBuilder.build_match [t0, t1] (entries.take j) entries).mmr_variance with hMvar
  have hcalc : TeamBuilder.calculate_match_quality
      (TeamBuilder.build_match [t0, t1] (entries.take j) entries) entries =
      (1 - (((min (max tA tB - min tA tB) 500 : Int) : ℚ)) / 500) * 0.5 +
      (1 - (((min Mvar 1000 : Int) : ℚ)) / 1000) * 0.3 + 1 * 0.2 := by
    unfold TeamBuilder.calculate_match_quality
    rw [hmmrs]
    simp only [List.foldl_cons, List.foldl_nil]
  have hquality : (TeamBuilder.build_match [t0, t1] (entries.take j) entries).quality_score =
      (1 - (((min (max tA tB - min tA tB) 500 : Int) : ℚ)) / 500) * 0.5 +
      (1 - (((min Mvar 1000 : Int) : ℚ)) / 1000) * 0.3 + 1 * 0.2 := by
    rw [TeamBuilder.build_match_quality, hcalc]
  have hspec : spec_quality_score entries (TeamBuilder.build_match [t0, t1]
      (entries.take j) entries) =
      0.5 * (1 - (((min |tA - tB| 500 : Int) : ℚ)) / 500) +
      0.3 * (1 - (((min (max Mvar 0) 1000 : Int) : ℚ)) / 1000) + 0.2 * 1 := by
    unfold spec_quality_score
    rw [hteams]
  have habs : max tA tB - min tA tB = |tA - tB| := (max_sub_min_eq_abs tA tB).trans (abs_sub_comm tB tA)
  have hclamp : max Mvar 0 = Mvar := max_eq_left hvarpos
  have hb1 : (0 : Int) ≤ min (max tA tB - min tA tB) 500 := by
    have := min_le_max (a := tA) (b := tB)
    omega
  have hb2 : min (max tA tB - min tA tB) 500 ≤ (500 : Int) := min_le_right _ _
  have hv1 : (0 : Int) ≤ min Mvar 1000 := le_min hvarpos (by omega)
  have hv2 : min Mvar 1000 ≤ (1000 : Int) := min_le_right _ _
  have hb1q : (0 : ℚ) ≤ ((min (max tA tB - min tA tB) 500 : Int) : ℚ) := by exact_mod_cast hb1
  have hb2q : ((min (max tA tB - min tA tB) 500 : Int) : ℚ) ≤ 500 := by exact_mod_cast hb2
  have hv1q : (0 : ℚ) ≤ ((min Mvar 1000 : Int) : ℚ) := by exact_mod_cast hv1
  have hv2q : ((min Mvar 1000 : Int) : ℚ) ≤ 1000 := by exact_mod_cast hv2
  refine ⟨?_, ?_, ?_⟩
  · rw [hquality, hspec, ← habs, hclamp]
    ring
  · rw [hquality]
    have hB : (0 : ℚ) ≤ 1 - ((min (max tA tB - min tA tB) 500 : Int) : ℚ) / 500 := by
      rw [sub_nonneg, div_le_one (by norm_num)]
      exact hb2q
    have hV : (0 : ℚ) ≤ 1 - ((min Mvar 1000 : Int) : ℚ) / 1000 := by
      rw [sub_nonneg, div_le_one (by norm_num)]
      exact hv2q
    nlinarith
  · rw [hquality]
    have hB : 1 - ((min (max tA tB - min tA tB) 500 : Int) : ℚ) / 500 ≤ 1 := by
      have : (0 : ℚ) ≤ ((min (max tA tB - min tA tB) 500 : Int) : ℚ) / 500 :=
        div_nonneg hb1q (by norm_num)
      linarith
    have hV : 1 - ((min Mvar 1000 : Int) : ℚ) / 1000 ≤ 1 := by
      have : (0 : ℚ) ≤ ((min Mvar 1000 : Int) : ℚ) / 1000 := div_nonneg hv1q (by norm_num)
      linarith
    nlinarith

/-- C6 witness: the fixture pair's match has quality 1 = the spec formula's
value (zero spread, zero variance) and lies in [0, 1]. -/
theorem c6_witness :
    wPairMatch.quality_score = spec_quality_score wPair wPairMatch ∧
    0 ≤ wPairMatch.quality_score ∧ wPairMatch.quality_score ≤ 1 :=
  @c6_quality_score_formula wPair 5 100 wPairMatch
    (by set_option maxRecDepth 100000 in with_unfolding_all decide)
    (by decide) (by decide) (by decide)

end Matchmaker
